import Mathlib

/-!
A shallow embedding of the static cost calculator of
src/apollo-router/src/plugins/demand_control/cost_calculator/static_cost.rs.

Modelling conventions:
- f64 cost values are modelled as rationals (Cost); the arithmetic performed by the
  source (addition, multiplication by an i32 count, max) is exact on the values the
  calculator manipulates.
- Fallible Rust functions returning Result<f64, DemandControlError> are modelled with
  the Result type below.
- The mutually recursive scorers of the source recurse through schema-supplied data
  (fragment definitions, requires selection sets, subgraph operations), so their
  recursion is not structural in the query alone; the Rust functions simply use the
  call stack and would not return on cyclic inputs.  The embedding makes that stack
  explicit as a fuel parameter: every call consumes one unit and exhaustion yields the
  distinguished error recursionLimitExceeded, which the Rust code cannot produce (it
  would instead fail to terminate).  All claims are therefore stated about runs that
  succeed, for arbitrary fuel.
- Collaborator modules that are outside the embedded source file (the directives
  module, the demand-controlled schema wrapper, the query planner node types and the
  response visitor trait) are modelled from the specification; the doc comments of the
  corresponding definitions say so explicitly.
-/

namespace StaticCost

/-- Costs are rationals standing in for the f64 values of the source. -/
abbrev Cost := ℚ

/-- The error type of the calculator.  queryParseFailure and
subgraphOperationNotInitialized mirror the DemandControlError variants used by the
source file; recursionLimitExceeded is the fuel-exhaustion artefact described in the
module comment. -/
inductive DemandControlError where
  | queryParseFailure (msg : String)
  | subgraphOperationNotInitialized
  | recursionLimitExceeded
deriving DecidableEq

/-- Result of a fallible scoring computation, mirroring Result<A, DemandControlError>. -/
inductive Result (α : Type) where
  | ok (value : α)
  | error (e : DemandControlError)
deriving DecidableEq

instance : Monad Result where
  pure := .ok
  bind x f :=
    match x with
    | .ok v => f v
    | .error e => .error e

/-- GraphQL type syntax (apollo_compiler ast::Type): a possibly list-wrapped,
possibly non-null named type. -/
inductive GqlType where
  | named (n : String)
  | nonNullNamed (n : String)
  | list (t : GqlType)
  | nonNullList (t : GqlType)
deriving DecidableEq

/-- Type::is_list of apollo_compiler: true exactly for the two list wrappers. -/
def GqlType.is_list : GqlType → Bool
  | .list _ => true
  | .nonNullList _ => true
  | _ => false

/-- Type::inner_named_type of apollo_compiler: the name inside all wrappers. -/
def GqlType.inner_named_type : GqlType → String
  | .named n => n
  | .nonNullNamed n => n
  | .list t => t.inner_named_type
  | .nonNullList t => t.inner_named_type

/-- GraphQL literal values (apollo_compiler ast::Value). -/
inductive GqlValue where
  | null
  | boolean (b : Bool)
  | int (n : Int)
  | float (q : ℚ)
  | str (s : String)
  | enum (s : String)
  | var (name : String)
  | list (elements : List GqlValue)
  | object (fields : List (String × GqlValue))

/-- An input value (argument) definition together with the Cost directive attached to
it.  The directive lookup itself lives in the directives module, outside the embedded
source file; per the specification it yields an optional numeric weight. -/
structure InputValueDefinition where
  name : String
  ty : GqlType
  cost_directive : Option Cost

/-- The schema-side shape of a named type (apollo_compiler schema::ExtendedType),
keeping only what the calculator inspects: the variant, and for input objects their
field definitions. -/
inductive ExtendedType where
  | scalar
  | object
  | interface
  | union
  | enum
  | inputObject (fields : List (String × InputValueDefinition))

def ExtendedType.is_interface : ExtendedType → Bool
  | .interface => true
  | _ => false

def ExtendedType.is_object : ExtendedType → Bool
  | .object => true
  | _ => false

def ExtendedType.is_union : ExtendedType → Bool
  | .union => true
  | _ => false

/-- A field definition, keeping the argument definitions the calculator resolves. -/
structure FieldDefinition where
  arguments : List InputValueDefinition

/-- FieldDefinition::argument_by_name of apollo_compiler. -/
def FieldDefinition.argument_by_name (definition : FieldDefinition) (name : String) :
    Option InputValueDefinition :=
  definition.arguments.find? (fun a => a.name == name)

/-- A directive application in the query (name plus literal arguments). -/
structure GqlDirective where
  name : String
  arguments : List (String × GqlValue)

def GqlDirective.argument_by_name (d : GqlDirective) (name : String) : Option GqlValue :=
  d.arguments.lookup name

mutual
/-- An executable field (apollo_compiler executable::Field): name, literal arguments,
declared type, directives, nested selection set. -/
inductive Field : Type where
  | mk (name : String) (arguments : List (String × GqlValue)) (ty : GqlType)
      (directives : List GqlDirective) (selection_set : List Selection) : Field

/-- An executable selection (apollo_compiler executable::Selection). -/
inductive Selection : Type where
  | field (f : Field) : Selection
  | fragmentSpread (fragment_name : String) : Selection
  | inlineFragment (type_condition : Option String) (selection_set : List Selection) : Selection
end

def Field.name : Field → String
  | .mk n _ _ _ _ => n

def Field.arguments : Field → List (String × GqlValue)
  | .mk _ a _ _ _ => a

def Field.ty : Field → GqlType
  | .mk _ _ t _ _ => t

def Field.directives : Field → List GqlDirective
  | .mk _ _ _ d _ => d

def Field.selection_set : Field → List Selection
  | .mk _ _ _ _ s => s

/-- A named fragment definition of the document. -/
structure Fragment where
  type_condition : String
  selection_set : List Selection

inductive OperationType where
  | query
  | mutation
  | subscription
deriving DecidableEq

/-- An executable operation.  selection_set_ty records the type the parser attached to
the root selection set (used by the response visitor); the static scorer instead asks
the schema for the root type, as the source does. -/
structure Operation where
  operation_type : OperationType
  selection_set_ty : String
  selection_set : List Selection

/-- Operation::is_mutation of apollo_compiler. -/
def Operation.is_mutation (op : Operation) : Bool :=
  match op.operation_type with
  | .mutation => true
  | _ => false

/-- An executable document: optional anonymous operation, named operations in document
order, and the fragment table. -/
structure ExecutableDocument where
  anonymous : Option Operation
  named : List (String × Operation)
  fragments : String → Option Fragment

/-- The resolved form of a ListSize directive, as the directives module produces it
for a concrete field: an optional expected size, and the names of the child fields
whose size this directive determines.  Modelled from the spec: the ListSize directive
describes either a fixed expected size or a reference to sibling arguments/fields that
supply the size. -/
structure ListSizeDirective where
  expected_size : Option Int
  sized_fields : List String

/-- ListSizeDirective::size_of: the size this (parent) directive assigns to a child
field, when the child is one of its sized fields.  Modelled from the spec. -/
def ListSizeDirective.size_of (dir : ListSizeDirective) (field : Field) : Option Int :=
  if dir.sized_fields.contains field.name then dir.expected_size else none

/-- The schema-side, unresolved ListSize directive of a field.  Its resolution against
the concrete query field (slicing arguments and so on) happens in the directives
module, outside the embedded source; it is modelled from the spec as a function that
may fail and otherwise yields the resolved directive. -/
structure ListSizeDirectiveDef where
  with_field : Field → Result ListSizeDirective

/-- The demand-controlled schema interface consumed by the calculator, modelled from
the spec as the collaborator boundary: type lookup, field-definition lookup, and the
per-field Cost, ListSize and Requires directive lookups, plus root-operation lookup.
All lookups are on the full, directive-preserving schema view. -/
structure Schema where
  types : String → Option ExtendedType
  type_field : String → String → Option FieldDefinition
  type_field_cost_directive : String → String → Option Cost
  type_field_list_size_directive : String → String → Option ListSizeDirectiveDef
  type_field_requires_directive : String → String → Option (List Selection)
  root_operation : OperationType → Option String

/-- The wrapping cast u32 -> i32 applied by the source at the default-list-size
fallback (list_size is a u32 and the instance count an i32): a value whose low 32
bits reach 2^31 wraps to a negative count. -/
def i32_of_u32 (n : Nat) : Int :=
  if n % 2 ^ 32 < 2 ^ 31 then ((n % 2 ^ 32 : Nat) : Int)
  else ((n % 2 ^ 32 : Nat) : Int) - 2 ^ 32

/-- The calculator state: the configured global default list size, the supergraph
schema, and the per-subgraph schema map. -/
structure StaticCostCalculator where
  list_size : Nat
  supergraph_schema : Schema
  subgraph_schemas : String → Option Schema

/-- IncludeDirective::from_field.  Modelled from the spec: reads the literal boolean
if argument of an include directive on the field; a present directive without a
literal boolean argument is an error. -/
def include_directive_from_field (field : Field) : Result (Option Bool) :=
  match field.directives.find? (fun d => d.name == "include") with
  | none => .ok none
  | some d =>
    match d.argument_by_name "if" with
    | some (.boolean b) => .ok (some b)
    | _ => .error (.queryParseFailure "include directive argument must be a literal boolean")

/-- SkipDirective::from_field.  Modelled from the spec, symmetrically to include. -/
def skip_directive_from_field (field : Field) : Result (Option Bool) :=
  match field.directives.find? (fun d => d.name == "skip") with
  | none => .ok none
  | some d =>
    match d.argument_by_name "if" with
    | some (.boolean b) => .ok (some b)
    | _ => .error (.queryParseFailure "skip directive argument must be a literal boolean")

/-- StaticCostCalculator::skipped_by_directives: true when an include directive parsed
to is_included false, or a skip directive parsed to is_skipped true; parse errors are
treated as not skipped, as in the source. -/
def skipped_by_directives (field : Field) : Bool :=
  match include_directive_from_field field with
  | .ok (some false) => true
  | _ =>
    match skip_directive_from_field field with
    | .ok (some true) => true
    | _ => false

mutual
/-- score_argument of the source: prices a literal argument value against its
declared definition.  Object, interface and union argument types are hard errors;
an input-object literal costs its Cost weight (default 1) plus its present fields,
each of which must have a definition; a list literal costs its Cost weight (default 0)
plus its elements against the same definition; a null literal costs 0; anything else
costs the Cost weight (default 0). -/
def score_argument (fuel : Nat) (argument : GqlValue)
    (argument_definition : InputValueDefinition) (schema : Schema) : Result Cost :=
  match fuel with
  | 0 => .error .recursionLimitExceeded
  | fu + 1 =>
    let cost_directive := argument_definition.cost_directive
    match schema.types argument_definition.ty.inner_named_type with
    | none => .error (.queryParseFailure "argument type was not found in the schema")
    | some ty =>
      match argument, ty with
      | _, .interface =>
        .error (.queryParseFailure "objects interfaces and unions are disallowed in this position")
      | _, .object =>
        .error (.queryParseFailure "objects interfaces and unions are disallowed in this position")
      | _, .union =>
        .error (.queryParseFailure "objects interfaces and unions are disallowed in this position")
      | .object inner_args, .inputObject inner_arg_defs =>
        score_argument_fields fu inner_args inner_arg_defs schema (cost_directive.getD 1)
      | .list inner_args, _ =>
        score_argument_list fu inner_args argument_definition schema (cost_directive.getD 0)
      | .null, _ => .ok 0
      | _, _ => .ok (cost_directive.getD 0)
termination_by structural fuel

/-- The loop of the input-object arm of score_argument: each literal field must have a
definition among the input object fields, and contributes its recursive score. -/
def score_argument_fields (fuel : Nat) (inner_args : List (String × GqlValue))
    (inner_arg_defs : List (String × InputValueDefinition)) (schema : Schema)
    (cost : Cost) : Result Cost :=
  match fuel with
  | 0 => .error .recursionLimitExceeded
  | fu + 1 =>
    match inner_args with
    | [] => .ok cost
    | (arg_name, arg_val) :: rest =>
      match inner_arg_defs.lookup arg_name with
      | none => .error (.queryParseFailure "input object field was not found in the schema")
      | some arg_def => do
        let c ← score_argument fu arg_val arg_def schema
        score_argument_fields fu rest inner_arg_defs schema (cost + c)
termination_by structural fuel

/-- The loop of the list arm of score_argument: every element is scored against the
same argument definition. -/
def score_argument_list (fuel : Nat) (inner_args : List GqlValue)
    (argument_definition : InputValueDefinition) (schema : Schema) (cost : Cost) :
    Result Cost :=
  match fuel with
  | 0 => .error .recursionLimitExceeded
  | fu + 1 =>
    match inner_args with
    | [] => .ok cost
    | arg_val :: rest => do
      let c ← score_argument fu arg_val argument_definition schema
      score_argument_list fu rest argument_definition schema (cost + c)
termination_by structural fuel

/-- The arguments loop of score_field (source lines 186 to 196): every argument
present in the query must have a definition on the field, and contributes its
score_argument result; the total is the arguments cost of the field. -/
def field_arguments_cost (fuel : Nat) (arguments : List (String × GqlValue))
    (definition : FieldDefinition) (schema : Schema) : Result Cost :=
  match fuel with
  | 0 => .error .recursionLimitExceeded
  | fu + 1 =>
    match arguments with
    | [] => .ok 0
    | (argument_name, argument_value) :: rest =>
      match definition.argument_by_name argument_name with
      | none => .error (.queryParseFailure "argument of field is missing a definition in the schema")
      | some argument_definition => do
        let c ← score_argument fu argument_value argument_definition schema
        let crest ← field_arguments_cost fu rest definition schema
        pure (c + crest)
termination_by structural fuel

/-- The argument walk of ResponseCostCalculator::visit_field: arguments whose field
definition or argument definition cannot be resolved contribute zero (the source logs
a warning and continues), as does an argument whose score_argument call fails. -/
def visit_field_arguments (fuel : Nat) (definition : Option FieldDefinition)
    (arguments : List (String × GqlValue)) (schema : Schema) : Cost :=
  match fuel with
  | 0 => 0
  | fu + 1 =>
    match arguments with
    | [] => 0
    | (argument_name, argument_value) :: rest =>
      (match definition with
       | some fdef =>
         match fdef.argument_by_name argument_name with
         | some argument_definition =>
           match score_argument fu argument_value argument_definition schema with
           | .ok score => score
           | .error _ => 0
         | none => 0
       | none => 0)
      + visit_field_arguments fu definition rest schema
termination_by structural fuel
end

/-- The resolution of the ListSize directive of a field (source lines 147 to 151): a
schema-side directive, when present, is resolved against the concrete field and may
fail; absence resolves to none. -/
def resolved_list_size_directive (schema : Schema) (parent_type : String) (field : Field) :
    Result (Option ListSizeDirective) :=
  match schema.type_field_list_size_directive parent_type field.name with
  | some dir =>
    match dir.with_field field with
    | .ok resolved => .ok (some resolved)
    | .error e => .error e
  | none => .ok none

mutual
/-- StaticCostCalculator::score_field of the source.  A field skipped by directives
costs 0; otherwise its definition and inner type are resolved (hard errors if absent),
its ListSize directive is resolved, and the cost is
instance_count * (type cost + selection set cost) + arguments cost + requirements
cost, with the instance count and type cost computed exactly as in the source. -/
def score_field (self : StaticCostCalculator) (fuel : Nat) (field : Field)
    (parent_type : String) (schema : Schema) (executable : ExecutableDocument)
    (should_estimate_requires : Bool) (list_size_from_upstream : Option Int) : Result Cost :=
  match fuel with
  | 0 => .error .recursionLimitExceeded
  | fu + 1 =>
    if skipped_by_directives field then .ok 0 else
    match schema.type_field parent_type field.name with
    | none => .error (.queryParseFailure "field is missing a definition in the schema")
    | some definition =>
      match schema.types field.ty.inner_named_type with
      | none => .error (.queryParseFailure "field type is missing from the schema")
      | some ty =>
        match resolved_list_size_directive schema parent_type field with
        | .error e => .error e
        | .ok list_size_directive =>
          let instance_count : Int :=
            if !field.ty.is_list then 1
            else match list_size_from_upstream with
              | some value => value
              | none =>
                match list_size_directive.bind (fun dir => dir.expected_size) with
                | some expected_size => expected_size
                | none => i32_of_u32 self.list_size
          let type_cost_base : Cost :=
            match schema.type_field_cost_directive parent_type field.name with
            | some weight => weight
            | none => if ty.is_interface || ty.is_object || ty.is_union then 1 else 0
          do
            let selection_set_cost ←
              score_selection_set self fu field.selection_set field.ty.inner_named_type
                schema executable should_estimate_requires list_size_directive
            let type_cost := type_cost_base + selection_set_cost
            let arguments_cost ← field_arguments_cost fu field.arguments definition schema
            let requirements_cost ←
              field_requirements_cost self fu field parent_type schema executable
                should_estimate_requires list_size_directive
            pure ((instance_count : Cost) * type_cost + arguments_cost + requirements_cost)
termination_by structural fuel

/-- The requirements step of score_field (source lines 198 to 216): only when
requirement estimation is enabled, the selection set named by the Requires directive
of the field, if any, is scored against the same parent type, with the resolved
ListSize directive of the field as context. -/
def field_requirements_cost (self : StaticCostCalculator) (fuel : Nat) (field : Field)
    (parent_type : String) (schema : Schema) (executable : ExecutableDocument)
    (should_estimate_requires : Bool) (list_size_directive : Option ListSizeDirective) :
    Result Cost :=
  match fuel with
  | 0 => .error .recursionLimitExceeded
  | fu + 1 =>
    if should_estimate_requires then
      match schema.type_field_requires_directive parent_type field.name with
      | some requirements =>
        score_selection_set self fu requirements parent_type schema executable
          should_estimate_requires list_size_directive
      | none => .ok 0
    else .ok 0
termination_by structural fuel

/-- StaticCostCalculator::score_fragment_spread: resolves the named fragment in the
document (hard error if absent) and scores its selection set against the given parent
type. -/
def score_fragment_spread (self : StaticCostCalculator) (fuel : Nat)
    (fragment_name : String) (parent_type : String) (schema : Schema)
    (executable : ExecutableDocument) (should_estimate_requires : Bool)
    (list_size_directive : Option ListSizeDirective) : Result Cost :=
  match fuel with
  | 0 => .error .recursionLimitExceeded
  | fu + 1 =>
    match executable.fragments fragment_name with
    | none => .error (.queryParseFailure "parsed operation did not have a definition for fragment")
    | some fragment =>
      score_selection_set self fu fragment.selection_set parent_type schema executable
        should_estimate_requires list_size_directive
termination_by structural fuel

/-- StaticCostCalculator::score_inline_fragment: scores the selection set of the
inline fragment against the parent type chosen by score_selection. -/
def score_inline_fragment (self : StaticCostCalculator) (fuel : Nat)
    (selection_set : List Selection) (parent_type : String) (schema : Schema)
    (executable : ExecutableDocument) (should_estimate_requires : Bool)
    (list_size_directive : Option ListSizeDirective) : Result Cost :=
  match fuel with
  | 0 => .error .recursionLimitExceeded
  | fu + 1 =>
    score_selection_set self fu selection_set parent_type schema executable
      should_estimate_requires list_size_directive
termination_by structural fuel

/-- StaticCostCalculator::score_operation: a mutation surcharge of 10 (0 otherwise),
plus the root selection set scored against the root type of the operation kind; a
schema without that root type is a hard error. -/
def score_operation (self : StaticCostCalculator) (fuel : Nat) (operation : Operation)
    (schema : Schema) (executable : ExecutableDocument)
    (should_estimate_requires : Bool) : Result Cost :=
  match fuel with
  | 0 => .error .recursionLimitExceeded
  | fu + 1 =>
    let cost : Cost := if operation.is_mutation then 10 else 0
    match schema.root_operation operation.operation_type with
    | none => .error (.queryParseFailure "schema does not support this root type")
    | some root_type_name => do
      let s ←
        score_selection_set self fu operation.selection_set root_type_name schema
          executable should_estimate_requires none
      pure (cost + s)

/-- StaticCostCalculator::score_selection: dispatches on the selection variant; for a
field the upstream list size is the size the enclosing directive assigns to that
field; an inline fragment narrows the parent type by its type condition when present. -/
def score_selection (self : StaticCostCalculator) (fuel : Nat) (selection : Selection)
    (parent_type : String) (schema : Schema) (executable : ExecutableDocument)
    (should_estimate_requires : Bool) (list_size_directive : Option ListSizeDirective) :
    Result Cost :=
  match fuel with
  | 0 => .error .recursionLimitExceeded
  | fu + 1 =>
    match selection with
    | .field f =>
      score_field self fu f parent_type schema executable should_estimate_requires
        (list_size_directive.bind (fun dir => dir.size_of f))
    | .fragmentSpread s =>
      score_fragment_spread self fu s parent_type schema executable
        should_estimate_requires list_size_directive
    | .inlineFragment type_condition selection_set =>
      score_inline_fragment self fu selection_set (type_condition.getD parent_type)
        schema executable should_estimate_requires list_size_directive
termination_by structural fuel

/-- StaticCostCalculator::score_selection_set: the sum of the scores of the
selections. -/
def score_selection_set (self : StaticCostCalculator) (fuel : Nat)
    (selection_set : List Selection) (parent_type_name : String) (schema : Schema)
    (executable : ExecutableDocument) (should_estimate_requires : Bool)
    (list_size_directive : Option ListSizeDirective) : Result Cost :=
  match fuel with
  | 0 => .error .recursionLimitExceeded
  | fu + 1 =>
    match selection_set with
    | [] => .ok 0
    | selection :: rest => do
      let c ←
        score_selection self fu selection parent_type_name schema executable
          should_estimate_requires list_size_directive
      let crest ←
        score_selection_set self fu rest parent_type_name schema executable
          should_estimate_requires list_size_directive
      pure (c + crest)
termination_by structural fuel

/-- StaticCostCalculator::estimated: the sum of the scores of the anonymous operation
(if any) and all named operations of the document. -/
def estimated (self : StaticCostCalculator) (fuel : Nat) (query : ExecutableDocument)
    (schema : Schema) (should_estimate_requires : Bool) : Result Cost :=
  match fuel with
  | 0 => .error .recursionLimitExceeded
  | fu + 1 => do
    let anonymous_cost ←
      match query.anonymous with
      | some op => score_operation self fu op schema query should_estimate_requires
      | none => pure 0
    let named_cost ← estimated_named self fu query.named schema query should_estimate_requires
    pure (anonymous_cost + named_cost)

/-- The loop over named operations of StaticCostCalculator::estimated. -/
def estimated_named (self : StaticCostCalculator) (fuel : Nat)
    (operations : List (String × Operation)) (schema : Schema)
    (query : ExecutableDocument) (should_estimate_requires : Bool) : Result Cost :=
  match fuel with
  | 0 => .error .recursionLimitExceeded
  | fu + 1 =>
    match operations with
    | [] => .ok 0
    | (_, op) :: rest => do
      let c ← score_operation self fu op schema query should_estimate_requires
      let crest ← estimated_named self fu rest schema query should_estimate_requires
      pure (c + crest)
termination_by structural fuel
end

/-- A sub-operation of a fetch or subscription plan node.  Modelled from the spec as
the explicit two-state value: unparsed (accessed before lazy initialization) or
parsed. -/
inductive SubgraphOperation where
  | unparsed
  | parsed (document : ExecutableDocument)

/-- SubgraphOperation::as_parsed: the parsed document, or the uninitialized error. -/
def SubgraphOperation.as_parsed : SubgraphOperation → Result ExecutableDocument
  | .unparsed => .error .subgraphOperationNotInitialized
  | .parsed document => .ok document

/-- The primary leg of a subscription node: a subgraph name and a sub-operation.
Modelled from the spec (query-planner entities are outside the embedded source). -/
structure SubscriptionNode where
  service_name : String
  operation : SubgraphOperation

/-- A federated query plan node.  Modelled from the spec: the node variants consumed
by the plan scorer, with exactly the components the scorer reads (the condition
string of a Condition node and the rest of a Subscription node are carried but
ignored, as in the source). -/
inductive PlanNode where
  | sequence (nodes : List PlanNode)
  | parallel (nodes : List PlanNode)
  | flatten (node : PlanNode)
  | condition (condition : String) (if_clause : Option PlanNode) (else_clause : Option PlanNode)
  | defer (primary : Option PlanNode) (deferred : List (Option PlanNode))
  | fetch (service_name : String) (operation : SubgraphOperation)
  | subscription (primary : SubscriptionNode) (rest : Option PlanNode)

/-- A query plan: its root node. -/
structure QueryPlan where
  root : PlanNode

mutual
/-- StaticCostCalculator::score_plan_node: Sequence and Parallel sum their children,
Flatten is transparent, Condition maximizes its optional branches, Defer sums the
primary and the deferred nodes, and Fetch and the primary leg of Subscription
delegate to the estimated cost of the sub-operation on the named subgraph. -/
def score_plan_node (self : StaticCostCalculator) (fuel : Nat) (plan_node : PlanNode) :
    Result Cost :=
  match fuel with
  | 0 => .error .recursionLimitExceeded
  | fu + 1 =>
    match plan_node with
    | .sequence nodes => summed_score_of_nodes self fu nodes
    | .parallel nodes => summed_score_of_nodes self fu nodes
    | .flatten node => score_plan_node self fu node
    | .condition _ if_clause else_clause => max_score_of_nodes self fu if_clause else_clause
    | .defer primary deferred => summed_score_of_deferred_nodes self fu primary deferred
    | .fetch service_name operation => estimated_cost_of_operation self fu service_name operation
    | .subscription primary _ =>
      estimated_cost_of_operation self fu primary.service_name primary.operation
termination_by structural fuel

/-- StaticCostCalculator::estimated_cost_of_operation: resolve the schema of the
named subgraph (hard error if the planner supplied none), obtain the parsed
sub-operation (hard error if uninitialized), and score it as a standalone document
with requirement estimation disabled. -/
def estimated_cost_of_operation (self : StaticCostCalculator) (fuel : Nat)
    (subgraph : String) (operation : SubgraphOperation) : Result Cost :=
  match fuel with
  | 0 => .error .recursionLimitExceeded
  | fu + 1 =>
    match self.subgraph_schemas subgraph with
    | none => .error (.queryParseFailure "query planner did not provide a schema for service")
    | some schema =>
      match operation.as_parsed with
      | .error e => .error e
      | .ok parsed_operation => estimated self fu parsed_operation schema false

/-- StaticCostCalculator::max_score_of_nodes: 0 when both branches are absent, the
present branch when only one is, and the maximum of both scores otherwise. -/
def max_score_of_nodes (self : StaticCostCalculator) (fuel : Nat)
    (left : Option PlanNode) (right : Option PlanNode) : Result Cost :=
  match fuel with
  | 0 => .error .recursionLimitExceeded
  | fu + 1 =>
    match left, right with
    | none, none => .ok 0
    | none, some right_node => score_plan_node self fu right_node
    | some left_node, none => score_plan_node self fu left_node
    | some left_node, some right_node => do
      let left_score ← score_plan_node self fu left_node
      let right_score ← score_plan_node self fu right_node
      pure (max left_score right_score)
termination_by structural fuel

/-- StaticCostCalculator::summed_score_of_deferred_nodes: the primary node (if any)
plus every present deferred node. -/
def summed_score_of_deferred_nodes (self : StaticCostCalculator) (fuel : Nat)
    (primary : Option PlanNode) (deferred : List (Option PlanNode)) : Result Cost :=
  match fuel with
  | 0 => .error .recursionLimitExceeded
  | fu + 1 => do
    let primary_score ←
      match primary with
      | some node => score_plan_node self fu node
      | none => pure 0
    let deferred_score ← summed_score_of_optional_nodes self fu deferred
    pure (primary_score + deferred_score)
termination_by structural fuel

/-- The loop over deferred nodes of summed_score_of_deferred_nodes: absent nodes
contribute nothing. -/
def summed_score_of_optional_nodes (self : StaticCostCalculator) (fuel : Nat)
    (nodes : List (Option PlanNode)) : Result Cost :=
  match fuel with
  | 0 => .error .recursionLimitExceeded
  | fu + 1 =>
    match nodes with
    | [] => .ok 0
    | none :: rest => summed_score_of_optional_nodes self fu rest
    | some node :: rest => do
      let c ← score_plan_node self fu node
      let crest ← summed_score_of_optional_nodes self fu rest
      pure (c + crest)
termination_by structural fuel

/-- StaticCostCalculator::summed_score_of_nodes: the sum of the scores of the nodes. -/
def summed_score_of_nodes (self : StaticCostCalculator) (fuel : Nat)
    (nodes : List PlanNode) : Result Cost :=
  match fuel with
  | 0 => .error .recursionLimitExceeded
  | fu + 1 =>
    match nodes with
    | [] => .ok 0
    | node :: rest => do
      let c ← score_plan_node self fu node
      let crest ← summed_score_of_nodes self fu rest
      pure (c + crest)
termination_by structural fuel
end

/-- StaticCostCalculator::planned: the score of the root plan node. -/
def planned (self : StaticCostCalculator) (fuel : Nat) (query_plan : QueryPlan) :
    Result Cost :=
  score_plan_node self fuel query_plan.root

/-- A JSON-like response value tree (serde_json_bytes Value). -/
inductive JsonValue where
  | null
  | boolean (b : Bool)
  | number (q : ℚ)
  | str (s : String)
  | array (items : List JsonValue)
  | object (fields : List (String × JsonValue))

/-- A GraphQL response: its optional data value. -/
structure Response where
  data : Option JsonValue

mutual
/-- ResponseVisitor::visit_field as implemented by ResponseCostCalculator: the cost of
the value as a list item, plus the argument costs of the field; a field or argument
definition that cannot be resolved contributes zero for the arguments and the walk
continues. -/
def visit_field (schema : Schema) (fuel : Nat) (request : ExecutableDocument)
    (parent_ty : String) (field : Field) (value : JsonValue) : Cost :=
  match fuel with
  | 0 => 0
  | fu + 1 =>
    visit_list_item schema fu request parent_ty field value
      + visit_field_arguments fu (schema.type_field parent_ty field.name) field.arguments schema
termination_by structural fuel

/-- ResponseVisitor::visit_list_item as implemented by ResponseCostCalculator: a
scalar leaf costs the Cost weight of the field (default 0); an array costs the sum of
its items, each visited with the same field; an object costs the Cost weight (default
1) plus its children visited through the selection set of the field. -/
def visit_list_item (schema : Schema) (fuel : Nat) (request : ExecutableDocument)
    (parent_ty : String) (field : Field) (value : JsonValue) : Cost :=
  match fuel with
  | 0 => 0
  | fu + 1 =>
    let cost_directive := schema.type_field_cost_directive parent_ty field.name
    match value with
    | .null => cost_directive.getD 0
    | .boolean _ => cost_directive.getD 0
    | .number _ => cost_directive.getD 0
    | .str _ => cost_directive.getD 0
    | .array items => visit_array_items schema fu request parent_ty field items
    | .object children =>
      cost_directive.getD 1
        + visit_selections schema fu request field.ty.inner_named_type field.selection_set children
termination_by structural fuel

/-- The loop over array items of visit_list_item. -/
def visit_array_items (schema : Schema) (fuel : Nat) (request : ExecutableDocument)
    (parent_ty : String) (field : Field) (items : List JsonValue) : Cost :=
  match fuel with
  | 0 => 0
  | fu + 1 =>
    match items with
    | [] => 0
    | item :: rest =>
      visit_list_item schema fu request parent_ty field item
        + visit_array_items schema fu request parent_ty field rest
termination_by structural fuel

/-- ResponseVisitor::visit_selections.  Modelled from the spec: the response walk
follows the selection structure of the query, matching response object entries by
field name; fields absent from the response contribute nothing, fragment spreads are
resolved in the document (an unresolved spread contributes nothing), and inline
fragments narrow the parent type by their type condition. -/
def visit_selections (schema : Schema) (fuel : Nat) (request : ExecutableDocument)
    (ty : String) (selection_set : List Selection) (fields : List (String × JsonValue)) :
    Cost :=
  match fuel with
  | 0 => 0
  | fu + 1 =>
    match selection_set with
    | [] => 0
    | selection :: rest =>
      (match selection with
       | .field inner_field =>
         match fields.lookup inner_field.name with
         | some value => visit_field schema fu request ty inner_field value
         | none => 0
       | .fragmentSpread fragment_name =>
         match request.fragments fragment_name with
         | some fragment =>
           visit_selections schema fu request fragment.type_condition fragment.selection_set fields
         | none => 0
       | .inlineFragment type_condition inner_selection_set =>
         visit_selections schema fu request (type_condition.getD ty) inner_selection_set fields)
      + visit_selections schema fu request ty rest fields
termination_by structural fuel
end

/-- The loop over named operations of ResponseVisitor::visit. -/
def visit_named_operations (schema : Schema) (fuel : Nat) (request : ExecutableDocument)
    (operations : List (String × Operation)) (children : List (String × JsonValue)) :
    Cost :=
  match operations with
  | [] => 0
  | (_, operation) :: rest =>
    visit_selections schema fuel request operation.selection_set_ty
      operation.selection_set children
      + visit_named_operations schema fuel request rest children

/-- ResponseVisitor::visit.  Modelled from the spec: when the response data is an
object, the selection sets of the anonymous operation (if any) and of every named
operation are walked against it; any other data contributes nothing. -/
def visit (schema : Schema) (fuel : Nat) (request : ExecutableDocument)
    (response : Response) : Cost :=
  match response.data with
  | some (.object children) =>
    (match request.anonymous with
     | some operation =>
       visit_selections schema fuel request operation.selection_set_ty
         operation.selection_set children
     | none => 0)
    + visit_named_operations schema fuel request request.named children
  | _ => 0

/-- StaticCostCalculator::actual: runs the response cost visitor over the request and
response and returns its accumulated cost; this entry point never fails. -/
def actual (self : StaticCostCalculator) (fuel : Nat) (request : ExecutableDocument)
    (response : Response) : Result Cost :=
  .ok (visit self.supergraph_schema fuel request response)

/-! Claim-side definitions: these follow the wording of the specification, to be
compared with the behaviour of the source-side functions above. -/

/-- The instance count of a scored field: 1 if the field type is not a list;
otherwise the size supplied by the enclosing ListSize directive resolution for this
field if present, else the expected size of the directive of the field itself if
present, else the wrapping i32 cast of the configured global default list size
(list_size as i32 in the source, negative when the default reaches 2^31). -/
def claimed_instance_count (self : StaticCostCalculator) (field : Field)
    (list_size_from_upstream : Option Int) (own_expected_size : Option Int) : Int :=
  if !field.ty.is_list then 1
  else
    match list_size_from_upstream with
    | some value => value
    | none =>
      match own_expected_size with
      | some value => value
      | none => i32_of_u32 self.list_size

/-- The base type cost as the specification words it: the Cost directive weight of
the field if present, else 1 if the named return type is an interface, object or
union, else 0. -/
def claimed_type_cost_base (schema : Schema) (parent_type : String) (field : Field)
    (ty : ExtendedType) : Cost :=
  match schema.type_field_cost_directive parent_type field.name with
  | some weight => weight
  | none => if ty.is_interface || ty.is_object || ty.is_union then 1 else 0

/-- The operations of a document in the order the estimator visits them: the
anonymous operation (if any) followed by the named operations. -/
def document_operations (query : ExecutableDocument) : List Operation :=
  (match query.anonymous with
   | some op => [op]
   | none => []) ++ query.named.map (fun p => p.2)

/-! Non-negativity predicates on schemas (the hypotheses of the amended claims about
non-negative costs). -/

/-- An optional cost weight that is non-negative when present. -/
def NonnegOptCost (w : Option Cost) : Prop := ∀ q, w = some q → 0 ≤ q

/-- An optional size that is non-negative when present. -/
def NonnegOptSize (k : Option Int) : Prop := ∀ n, k = some n → 0 ≤ n

/-- A resolved ListSize directive whose expected size is non-negative when present. -/
def NonnegDir (dir : ListSizeDirective) : Prop := NonnegOptSize dir.expected_size

/-- An optional resolved ListSize directive that is non-negative when present. -/
def NonnegOptDir (lsd : Option ListSizeDirective) : Prop :=
  ∀ dir, lsd = some dir → NonnegDir dir

/-- A schema all of whose Cost directive weights (on fields, on field arguments and on
input object fields) are non-negative and all of whose resolved ListSize directives
carry non-negative expected sizes. -/
structure SchemaNonneg (schema : Schema) : Prop where
  field_cost : ∀ pt f, NonnegOptCost (schema.type_field_cost_directive pt f)
  argument_cost : ∀ pt f fd, schema.type_field pt f = some fd →
    ∀ a ∈ fd.arguments, NonnegOptCost a.cost_directive
  input_object_cost : ∀ t fs, schema.types t = some (.inputObject fs) →
    ∀ p ∈ fs, NonnegOptCost p.2.cost_directive
  list_size : ∀ pt f dd, schema.type_field_list_size_directive pt f = some dd →
    ∀ fld dir, dd.with_field fld = .ok dir → NonnegDir dir

/-- A calculator all of whose subgraph schemas are non-negative. -/
def SubgraphsNonneg (self : StaticCostCalculator) : Prop :=
  ∀ name schema, self.subgraph_schemas name = some schema → SchemaNonneg schema

/-- The configured global default list size is below 2^31, so its wrapping cast to
i32 at the fallback site of score_field is the configured value itself. -/
def DefaultListSizeFits (self : StaticCostCalculator) : Prop :=
  self.list_size < 2 ^ 31

/-- A schema carrying no Cost, ListSize or Requires directives anywhere (the
hypothesis of the argument-insensitivity claim). -/
structure SchemaNoCostDirectives (schema : Schema) : Prop where
  field_cost : ∀ pt f, schema.type_field_cost_directive pt f = none
  list_size : ∀ pt f, schema.type_field_list_size_directive pt f = none
  requires : ∀ pt f, schema.type_field_requires_directive pt f = none
  argument_cost : ∀ pt f fd, schema.type_field pt f = some fd →
    ∀ a ∈ fd.arguments, a.cost_directive = none
  input_object_cost : ∀ t fs, schema.types t = some (.inputObject fs) →
    ∀ p ∈ fs, p.2.cost_directive = none

/-! Concrete fixtures used by witnesses and counterexamples.  The names of types and
fields follow small GraphQL schemas: a Query root type with an Int-returning field a
(and variations with directives). -/

/-- A field definition with no arguments. -/
def no_arguments_definition : FieldDefinition := ⟨[]⟩

/-- A plain schema: a Query root object type with a scalar field a of type Int, no
directives anywhere. -/
def schema_plain : Schema where
  types := fun n =>
    if n = "Int" then some .scalar else if n = "Query" then some .object else none
  type_field := fun pt f => if pt = "Query" && f = "a" then some no_arguments_definition else none
  type_field_cost_directive := fun _ _ => none
  type_field_list_size_directive := fun _ _ => none
  type_field_requires_directive := fun _ _ => none
  root_operation := fun t => if t = .query then some "Query" else none

/-- The field a of type Int, no arguments, no directives, no selection set. -/
def field_a : Field := .mk "a" [] (.named "Int") [] []

/-- The document consisting of the anonymous operation selecting the field a. -/
def doc_a : ExecutableDocument := ⟨some ⟨.query, "Query", [.field field_a]⟩, [], fun _ => none⟩

/-- A calculator over the plain schema with default list size 100 and no subgraphs. -/
def calc_plain : StaticCostCalculator := ⟨100, schema_plain, fun _ => none⟩

/-- The plain schema with a Cost directive of weight -1 on the field a of Query:
negative weights are expressible, which refutes the unconditional non-negativity and
max-with-zero claims. -/
def schema_neg : Schema where
  types := fun n =>
    if n = "Int" then some .scalar else if n = "Query" then some .object else none
  type_field := fun pt f => if pt = "Query" && f = "a" then some no_arguments_definition else none
  type_field_cost_directive := fun pt f => if pt = "Query" && f = "a" then some (-1) else none
  type_field_list_size_directive := fun _ _ => none
  type_field_requires_directive := fun _ _ => none
  root_operation := fun t => if t = .query then some "Query" else none

/-- A calculator over the negative-weight schema. -/
def calc_neg : StaticCostCalculator := ⟨100, schema_neg, fun _ => none⟩

/-- A calculator whose only subgraph S carries the negative-weight schema. -/
def calc_neg_subgraph : StaticCostCalculator :=
  ⟨100, schema_plain, fun name => if name = "S" then some schema_neg else none⟩

/-- A calculator whose only subgraph S carries the plain schema. -/
def calc_plain_subgraph : StaticCostCalculator :=
  ⟨100, schema_plain, fun name => if name = "S" then some schema_plain else none⟩

/-- The plain schema extended with a Requires directive on the field a of Query whose
required selection is a field g of Query carrying a Cost directive of weight -5. -/
def schema_requires_neg : Schema where
  types := fun n =>
    if n = "Int" then some .scalar else if n = "Query" then some .object else none
  type_field := fun pt f =>
    if pt = "Query" && (f = "a" || f = "g") then some no_arguments_definition else none
  type_field_cost_directive := fun pt f => if pt = "Query" && f = "g" then some (-5) else none
  type_field_list_size_directive := fun _ _ => none
  type_field_requires_directive := fun pt f =>
    if pt = "Query" && f = "a" then some [.field (.mk "g" [] (.named "Int") [] [])] else none
  root_operation := fun t => if t = .query then some "Query" else none

/-- A calculator over the requires-with-negative-weight schema. -/
def calc_requires_neg : StaticCostCalculator := ⟨100, schema_requires_neg, fun _ => none⟩

/-- A schema with no directives anywhere whose Query root has a field a of type Int
taking one argument arg of the input object type In (which has no fields). -/
def schema_input_object : Schema where
  types := fun n =>
    if n = "Int" then some .scalar
    else if n = "In" then some (.inputObject [])
    else if n = "Query" then some .object else none
  type_field := fun pt f =>
    if pt = "Query" && f = "a" then some ⟨[⟨"arg", .named "In", none⟩]⟩ else none
  type_field_cost_directive := fun _ _ => none
  type_field_list_size_directive := fun _ _ => none
  type_field_requires_directive := fun _ _ => none
  root_operation := fun t => if t = .query then some "Query" else none

/-- A calculator over the input-object schema. -/
def calc_input_object : StaticCostCalculator := ⟨100, schema_input_object, fun _ => none⟩

/-- The document selecting a with the literal argument arg being null. -/
def doc_arg_null : ExecutableDocument :=
  ⟨some ⟨.query, "Query", [.field (.mk "a" [("arg", .null)] (.named "Int") [] [])]⟩, [],
    fun _ => none⟩

/-- The document selecting a with the literal argument arg being the empty input
object: it differs from doc_arg_null only in that literal argument value. -/
def doc_arg_object : ExecutableDocument :=
  ⟨some ⟨.query, "Query", [.field (.mk "a" [("arg", .object [])] (.named "Int") [] [])]⟩, [],
    fun _ => none⟩

/-- The document selecting a with the literal argument arg being the boolean true:
the same nesting shape as the null argument of doc_arg_null (both are leaves). -/
def doc_arg_true : ExecutableDocument :=
  ⟨some ⟨.query, "Query", [.field (.mk "a" [("arg", .boolean true)] (.named "Int") [] [])]⟩, [],
    fun _ => none⟩

/-- A schema with no directives anywhere whose Query root has a field objs returning
a list of the object type Obj. -/
def schema_obj_list : Schema where
  types := fun n =>
    if n = "Obj" then some .object else if n = "Query" then some .object else none
  type_field := fun pt f =>
    if pt = "Query" && f = "objs" then some no_arguments_definition else none
  type_field_cost_directive := fun _ _ => none
  type_field_list_size_directive := fun _ _ => none
  type_field_requires_directive := fun _ _ => none
  root_operation := fun t => if t = .query then some "Query" else none

/-- The field objs of the list type [Obj] with no arguments, no directives and no
subselections. -/
def field_objs : Field := .mk "objs" [] (.list (.named "Obj")) [] []

/-- The document consisting of the anonymous operation selecting objs. -/
def doc_objs : ExecutableDocument :=
  ⟨some ⟨.query, "Query", [.field field_objs]⟩, [], fun _ => none⟩

/-- A calculator over schema_obj_list whose configured default list size is 2^31:
the wrapping i32 cast of that default is -2^31. -/
def calc_big : StaticCostCalculator := ⟨2 ^ 31, schema_obj_list, fun _ => none⟩


/-- An argument definition of scalar type Int carrying a Cost directive of weight 5
(used to show a null literal scores 0 regardless of the directive). -/
def input_definition_costed : InputValueDefinition := ⟨"x", .named "Int", some 5⟩

/-- A fetch plan node against the subgraph S with a parsed sub-operation. -/
def fetch_node_a : PlanNode := .fetch "S" (.parsed doc_a)

/-- A condition plan node with no if branch whose else branch is the fetch node. -/
def condition_node_neg : PlanNode := .condition "c" none (some fetch_node_a)


/-- A scalar (non-array, non-object) response value. -/
def JsonValue.is_scalar : JsonValue → Bool
  | .null => true
  | .boolean _ => true
  | .number _ => true
  | .str _ => true
  | .array _ => false
  | .object _ => false

/-- A response whose data is an object binding the field a to a three-element array
of numbers. -/
def response_array_3 : Response :=
  ⟨some (.object [("a", .array [.number 1, .number 2, .number 3])])⟩

/-- A leaf literal value: neither a list nor an input object literal. -/
def GqlValue.is_leaf : GqlValue → Bool
  | .list _ => false
  | .object _ => false
  | _ => true

mutual
/-- Two literal values of the same nesting shape: leaves may be exchanged freely,
lists must have pointwise same-shaped elements (hence equal lengths), and object
literals must bind the same field names in the same order to same-shaped values. -/
inductive SameShape : GqlValue → GqlValue → Prop where
  | leaf (v w : GqlValue) : v.is_leaf = true → w.is_leaf = true → SameShape v w
  | list (xs ys : List GqlValue) : SameShapeList xs ys → SameShape (.list xs) (.list ys)
  | object (xs ys : List (String × GqlValue)) : SameShapeFields xs ys →
      SameShape (.object xs) (.object ys)

inductive SameShapeList : List GqlValue → List GqlValue → Prop where
  | nil : SameShapeList [] []
  | cons (x y : GqlValue) (xs ys : List GqlValue) : SameShape x y → SameShapeList xs ys →
      SameShapeList (x :: xs) (y :: ys)

inductive SameShapeFields : List (String × GqlValue) → List (String × GqlValue) → Prop where
  | nil : SameShapeFields [] []
  | cons (n : String) (x y : GqlValue) (xs ys : List (String × GqlValue)) :
      SameShape x y → SameShapeFields xs ys →
      SameShapeFields ((n, x) :: xs) ((n, y) :: ys)
end

mutual
/-- Two fields that differ only in literal argument values (the values of
corresponding arguments related by R): same name, same argument names in the same
order, same declared type, same directives, and pointwise related selection sets. -/
inductive FieldRel (R : GqlValue → GqlValue → Prop) : Field → Field → Prop where
  | mk (name : String) (ty : GqlType) (directives : List GqlDirective)
      (args1 args2 : List (String × GqlValue)) (sels1 sels2 : List Selection) :
      ArgsRel R args1 args2 → SelsRel R sels1 sels2 →
      FieldRel R (.mk name args1 ty directives sels1) (.mk name args2 ty directives sels2)

/-- Two selections that differ only in literal argument values. -/
inductive SelRel (R : GqlValue → GqlValue → Prop) : Selection → Selection → Prop where
  | field (f g : Field) : FieldRel R f g → SelRel R (.field f) (.field g)
  | fragmentSpread (n : String) : SelRel R (.fragmentSpread n) (.fragmentSpread n)
  | inlineFragment (c : Option String) (s t : List Selection) : SelsRel R s t →
      SelRel R (.inlineFragment c s) (.inlineFragment c t)

/-- Two selection lists that differ only in literal argument values. -/
inductive SelsRel (R : GqlValue → GqlValue → Prop) : List Selection → List Selection → Prop where
  | nil : SelsRel R [] []
  | cons (s t : Selection) (ss ts : List Selection) : SelRel R s t → SelsRel R ss ts →
      SelsRel R (s :: ss) (t :: ts)

/-- Two argument lists binding the same names in the same order to related values. -/
inductive ArgsRel (R : GqlValue → GqlValue → Prop) :
    List (String × GqlValue) → List (String × GqlValue) → Prop where
  | nil : ArgsRel R [] []
  | cons (n : String) (v w : GqlValue) (vs ws : List (String × GqlValue)) : R v w →
      ArgsRel R vs ws → ArgsRel R ((n, v) :: vs) ((n, w) :: ws)
end

/-- Two operations that differ only in literal argument values. -/
def OperationRel (R : GqlValue → GqlValue → Prop) (op1 op2 : Operation) : Prop :=
  op1.operation_type = op2.operation_type ∧ op1.selection_set_ty = op2.selection_set_ty ∧
  SelsRel R op1.selection_set op2.selection_set

/-- Two fragments that differ only in literal argument values. -/
def FragmentRel (R : GqlValue → GqlValue → Prop) (f1 f2 : Fragment) : Prop :=
  f1.type_condition = f2.type_condition ∧ SelsRel R f1.selection_set f2.selection_set

/-- Relates options pointwise: both absent, or both present with related contents. -/
def OptionRel {α β : Type} (P : α → β → Prop) : Option α → Option β → Prop
  | none, none => True
  | some a, some b => P a b
  | _, _ => False

/-- Two documents that differ only in literal argument values (related by R): the
anonymous operations, the named operations (with equal names, in order) and the
fragment tables are pointwise related. -/
structure DocumentRel (R : GqlValue → GqlValue → Prop) (q1 q2 : ExecutableDocument) :
    Prop where
  anonymous : OptionRel (OperationRel R) q1.anonymous q2.anonymous
  named : List.Forall₂ (fun p q => p.1 = q.1 ∧ OperationRel R p.2 q.2) q1.named q2.named
  fragments : ∀ n, OptionRel (FragmentRel R) (q1.fragments n) (q2.fragments n)

/-- The common value of score_argument on any leaf literal whose definition carries
no Cost directive: an unresolvable or input-disallowed argument type is the
corresponding error, anything else scores 0. -/
def score_argument_leaf_result (argument_definition : InputValueDefinition)
    (schema : Schema) : Result Cost :=
  match schema.types argument_definition.ty.inner_named_type with
  | none => .error (.queryParseFailure "argument type was not found in the schema")
  | some .interface =>
    .error (.queryParseFailure "objects interfaces and unions are disallowed in this position")
  | some .object =>
    .error (.queryParseFailure "objects interfaces and unions are disallowed in this position")
  | some .union =>
    .error (.queryParseFailure "objects interfaces and unions are disallowed in this position")
  | some _ => .ok 0

/-! Basic lemmas about the Result monad. -/

@[simp] theorem result_bind_ok {α β : Type} (v : α) (f : α → Result β) :
    (Result.ok v >>= f) = f v := rfl

@[simp] theorem result_bind_error {α β : Type} (e : DemandControlError) (f : α → Result β) :
    (Result.error e >>= f) = Result.error e := rfl

@[simp] theorem result_pure {α : Type} (v : α) : (pure v : Result α) = Result.ok v := rfl

theorem result_bind_eq_ok {α β : Type} {x : Result α} {f : α → Result β} {v : β}
    (h : (x >>= f) = .ok v) : ∃ a, x = .ok a ∧ f a = .ok v := by
  cases x with
  | ok a => exact ⟨a, rfl, h⟩
  | error e => simp at h

/-! One-step unfolding lemmas at successor fuel, for the functions whose secondary
match is on an argument variable (the automatic equations of those functions split on
that argument as well, which makes them awkward to rewrite with). -/

theorem score_argument_fields_succ (fu : Nat) (inner_args : List (String × GqlValue))
    (inner_arg_defs : List (String × InputValueDefinition)) (schema : Schema) (cost : Cost) :
    score_argument_fields (fu + 1) inner_args inner_arg_defs schema cost =
      (match inner_args with
      | [] => .ok cost
      | (arg_name, arg_val) :: rest =>
        match inner_arg_defs.lookup arg_name with
        | none => .error (.queryParseFailure "input object field was not found in the schema")
        | some arg_def => do
          let c ← score_argument fu arg_val arg_def schema
          score_argument_fields fu rest inner_arg_defs schema (cost + c)) := rfl

theorem score_argument_list_succ (fu : Nat) (inner_args : List GqlValue)
    (argument_definition : InputValueDefinition) (schema : Schema) (cost : Cost) :
    score_argument_list (fu + 1) inner_args argument_definition schema cost =
      (match inner_args with
      | [] => .ok cost
      | arg_val :: rest => do
        let c ← score_argument fu arg_val argument_definition schema
        score_argument_list fu rest argument_definition schema (cost + c)) := rfl

theorem field_arguments_cost_succ (fu : Nat) (arguments : List (String × GqlValue))
    (definition : FieldDefinition) (schema : Schema) :
    field_arguments_cost (fu + 1) arguments definition schema =
      (match arguments with
      | [] => .ok 0
      | (argument_name, argument_value) :: rest =>
        match definition.argument_by_name argument_name with
        | none => .error (.queryParseFailure "argument of field is missing a definition in the schema")
        | some argument_definition => do
          let c ← score_argument fu argument_value argument_definition schema
          let crest ← field_arguments_cost fu rest definition schema
          pure (c + crest)) := rfl

theorem visit_field_arguments_succ (fu : Nat) (definition : Option FieldDefinition)
    (arguments : List (String × GqlValue)) (schema : Schema) :
    visit_field_arguments (fu + 1) definition arguments schema =
      (match arguments with
      | [] => 0
      | (argument_name, argument_value) :: rest =>
        (match definition with
         | some fdef =>
           match fdef.argument_by_name argument_name with
           | some argument_definition =>
             match score_argument fu argument_value argument_definition schema with
             | .ok score => score
             | .error _ => 0
           | none => 0
         | none => 0)
        + visit_field_arguments fu definition rest schema) := rfl

theorem score_selection_succ (self : StaticCostCalculator) (fu : Nat) (selection : Selection)
    (parent_type : String) (schema : Schema) (executable : ExecutableDocument)
    (should_estimate_requires : Bool) (list_size_directive : Option ListSizeDirective) :
    score_selection self (fu + 1) selection parent_type schema executable
        should_estimate_requires list_size_directive =
      (match selection with
      | .field f =>
        score_field self fu f parent_type schema executable should_estimate_requires
          (list_size_directive.bind (fun dir => dir.size_of f))
      | .fragmentSpread s =>
        score_fragment_spread self fu s parent_type schema executable
          should_estimate_requires list_size_directive
      | .inlineFragment type_condition selection_set =>
        score_inline_fragment self fu selection_set (type_condition.getD parent_type)
          schema executable should_estimate_requires list_size_directive) := rfl

theorem score_selection_set_succ (self : StaticCostCalculator) (fu : Nat)
    (selection_set : List Selection) (parent_type_name : String) (schema : Schema)
    (executable : ExecutableDocument) (should_estimate_requires : Bool)
    (list_size_directive : Option ListSizeDirective) :
    score_selection_set self (fu + 1) selection_set parent_type_name schema executable
        should_estimate_requires list_size_directive =
      (match selection_set with
      | [] => .ok 0
      | selection :: rest => do
        let c ←
          score_selection self fu selection parent_type_name schema executable
            should_estimate_requires list_size_directive
        let crest ←
          score_selection_set self fu rest parent_type_name schema executable
            should_estimate_requires list_size_directive
        pure (c + crest)) := rfl

theorem estimated_named_succ (self : StaticCostCalculator) (fu : Nat)
    (operations : List (String × Operation)) (schema : Schema)
    (query : ExecutableDocument) (should_estimate_requires : Bool) :
    estimated_named self (fu + 1) operations schema query should_estimate_requires =
      (match operations with
      | [] => .ok 0
      | (_, op) :: rest => do
        let c ← score_operation self fu op schema query should_estimate_requires
        let crest ← estimated_named self fu rest schema query should_estimate_requires
        pure (c + crest)) := rfl

theorem score_plan_node_succ (self : StaticCostCalculator) (fu : Nat) (plan_node : PlanNode) :
    score_plan_node self (fu + 1) plan_node =
      (match plan_node with
      | .sequence nodes => summed_score_of_nodes self fu nodes
      | .parallel nodes => summed_score_of_nodes self fu nodes
      | .flatten node => score_plan_node self fu node
      | .condition _ if_clause else_clause => max_score_of_nodes self fu if_clause else_clause
      | .defer primary deferred => summed_score_of_deferred_nodes self fu primary deferred
      | .fetch service_name operation => estimated_cost_of_operation self fu service_name operation
      | .subscription primary _ =>
        estimated_cost_of_operation self fu primary.service_name primary.operation) := rfl

theorem max_score_of_nodes_succ (self : StaticCostCalculator) (fu : Nat)
    (left : Option PlanNode) (right : Option PlanNode) :
    max_score_of_nodes self (fu + 1) left right =
      (match left, right with
      | none, none => .ok 0
      | none, some right_node => score_plan_node self fu right_node
      | some left_node, none => score_plan_node self fu left_node
      | some left_node, some right_node => do
        let left_score ← score_plan_node self fu left_node
        let right_score ← score_plan_node self fu right_node
        pure (max left_score right_score)) := rfl

theorem summed_score_of_deferred_nodes_succ (self : StaticCostCalculator) (fu : Nat)
    (primary : Option PlanNode) (deferred : List (Option PlanNode)) :
    summed_score_of_deferred_nodes self (fu + 1) primary deferred =
      (do
        let primary_score ←
          match primary with
          | some node => score_plan_node self fu node
          | none => pure 0
        let deferred_score ← summed_score_of_optional_nodes self fu deferred
        pure (primary_score + deferred_score)) := rfl

theorem summed_score_of_optional_nodes_succ (self : StaticCostCalculator) (fu : Nat)
    (nodes : List (Option PlanNode)) :
    summed_score_of_optional_nodes self (fu + 1) nodes =
      (match nodes with
      | [] => .ok 0
      | none :: rest => summed_score_of_optional_nodes self fu rest
      | some node :: rest => do
        let c ← score_plan_node self fu node
        let crest ← summed_score_of_optional_nodes self fu rest
        pure (c + crest)) := rfl

theorem summed_score_of_nodes_succ (self : StaticCostCalculator) (fu : Nat)
    (nodes : List PlanNode) :
    summed_score_of_nodes self (fu + 1) nodes =
      (match nodes with
      | [] => .ok 0
      | node :: rest => do
        let c ← score_plan_node self fu node
        let crest ← summed_score_of_nodes self fu rest
        pure (c + crest)) := rfl

theorem visit_list_item_succ (schema : Schema) (fu : Nat) (request : ExecutableDocument)
    (parent_ty : String) (field : Field) (value : JsonValue) :
    visit_list_item schema (fu + 1) request parent_ty field value =
      (let cost_directive := schema.type_field_cost_directive parent_ty field.name
      match value with
      | .null => cost_directive.getD 0
      | .boolean _ => cost_directive.getD 0
      | .number _ => cost_directive.getD 0
      | .str _ => cost_directive.getD 0
      | .array items => visit_array_items schema fu request parent_ty field items
      | .object children =>
        cost_directive.getD 1
          + visit_selections schema fu request field.ty.inner_named_type field.selection_set
              children) := rfl

theorem visit_array_items_succ (schema : Schema) (fu : Nat) (request : ExecutableDocument)
    (parent_ty : String) (field : Field) (items : List JsonValue) :
    visit_array_items schema (fu + 1) request parent_ty field items =
      (match items with
      | [] => 0
      | item :: rest =>
        visit_list_item schema fu request parent_ty field item
          + visit_array_items schema fu request parent_ty field rest) := rfl

theorem visit_selections_succ (schema : Schema) (fu : Nat) (request : ExecutableDocument)
    (ty : String) (selection_set : List Selection) (fields : List (String × JsonValue)) :
    visit_selections schema (fu + 1) request ty selection_set fields =
      (match selection_set with
      | [] => 0
      | selection :: rest =>
        (match selection with
         | .field inner_field =>
           match fields.lookup inner_field.name with
           | some value => visit_field schema fu request ty inner_field value
           | none => 0
         | .fragmentSpread fragment_name =>
           match request.fragments fragment_name with
           | some fragment =>
             visit_selections schema fu request fragment.type_condition fragment.selection_set
               fields
           | none => 0
         | .inlineFragment type_condition inner_selection_set =>
           visit_selections schema fu request (type_condition.getD ty) inner_selection_set fields)
        + visit_selections schema fu request ty rest fields) := rfl

/-! Fuel monotonicity: a scoring call that succeeds at some fuel succeeds with the
same value at any larger fuel.  This lets claims about runs that succeed be stated at
a single fuel. -/

theorem fuel_mono_arguments : ∀ fuel : Nat,
    (∀ argument argument_definition schema v,
      score_argument fuel argument argument_definition schema = .ok v →
      score_argument (fuel + 1) argument argument_definition schema = .ok v) ∧
    (∀ inner_args inner_arg_defs schema cost v,
      score_argument_fields fuel inner_args inner_arg_defs schema cost = .ok v →
      score_argument_fields (fuel + 1) inner_args inner_arg_defs schema cost = .ok v) ∧
    (∀ inner_args argument_definition schema cost v,
      score_argument_list fuel inner_args argument_definition schema cost = .ok v →
      score_argument_list (fuel + 1) inner_args argument_definition schema cost = .ok v) ∧
    (∀ arguments definition schema v,
      field_arguments_cost fuel arguments definition schema = .ok v →
      field_arguments_cost (fuel + 1) arguments definition schema = .ok v) := by
  intro fuel
  induction fuel with
  | zero =>
    refine ⟨?_, ?_, ?_, ?_⟩
    · intro _ _ _ _ h
      exact absurd h (by rw [score_argument]; simp)
    · intro _ _ _ _ _ h
      exact absurd h (by rw [score_argument_fields]; simp)
    · intro _ _ _ _ _ h
      exact absurd h (by rw [score_argument_list]; simp)
    · intro _ _ _ _ h
      exact absurd h (by rw [field_arguments_cost]; simp)
  | succ fu ih =>
    obtain ⟨ih_arg, ih_fields, ih_list, ih_fac⟩ := ih
    refine ⟨?_, ?_, ?_, ?_⟩
    · intro argument argument_definition schema v h
      rw [score_argument] at h ⊢
      split at h
      · exact absurd h (by simp)
      · split at h
        · exact absurd h (by simp)
        · exact absurd h (by simp)
        · exact absurd h (by simp)
        · exact ih_fields _ _ _ _ _ h
        · exact ih_list _ _ _ _ _ h
        · exact h
        · exact h
    · intro inner_args inner_arg_defs schema cost v h
      rw [score_argument_fields_succ] at h ⊢
      split at h
      · exact h
      · split at h
        · exact absurd h (by simp)
        · obtain ⟨c, hc, h⟩ := result_bind_eq_ok h
          rw [ih_arg _ _ _ _ hc]
          simpa using ih_fields _ _ _ _ _ h
    · intro inner_args argument_definition schema cost v h
      rw [score_argument_list_succ] at h ⊢
      split at h
      · exact h
      · obtain ⟨c, hc, h⟩ := result_bind_eq_ok h
        rw [ih_arg _ _ _ _ hc]
        simpa using ih_list _ _ _ _ _ h
    · intro arguments definition schema v h
      rw [field_arguments_cost_succ] at h ⊢
      split at h
      · exact h
      · split at h
        · exact absurd h (by simp)
        · obtain ⟨c, hc, h⟩ := result_bind_eq_ok h
          obtain ⟨crest, hcrest, h⟩ := result_bind_eq_ok h
          rw [ih_arg _ _ _ _ hc]
          simp only [result_bind_ok]
          rw [ih_fac _ _ _ _ hcrest]
          simpa using h

theorem fuel_mono_document : ∀ fuel : Nat,
    (∀ self field parent_type schema executable ser up v,
      score_field self fuel field parent_type schema executable ser up = .ok v →
      score_field self (fuel + 1) field parent_type schema executable ser up = .ok v) ∧
    (∀ self field parent_type schema executable ser lsd v,
      field_requirements_cost self fuel field parent_type schema executable ser lsd = .ok v →
      field_requirements_cost self (fuel + 1) field parent_type schema executable ser lsd = .ok v) ∧
    (∀ self fragment_name parent_type schema executable ser lsd v,
      score_fragment_spread self fuel fragment_name parent_type schema executable ser lsd = .ok v →
      score_fragment_spread self (fuel + 1) fragment_name parent_type schema executable ser lsd = .ok v) ∧
    (∀ self selection_set parent_type schema executable ser lsd v,
      score_inline_fragment self fuel selection_set parent_type schema executable ser lsd = .ok v →
      score_inline_fragment self (fuel + 1) selection_set parent_type schema executable ser lsd = .ok v) ∧
    (∀ self selection parent_type schema executable ser lsd v,
      score_selection self fuel selection parent_type schema executable ser lsd = .ok v →
      score_selection self (fuel + 1) selection parent_type schema executable ser lsd = .ok v) ∧
    (∀ self selection_set parent_type schema executable ser lsd v,
      score_selection_set self fuel selection_set parent_type schema executable ser lsd = .ok v →
      score_selection_set self (fuel + 1) selection_set parent_type schema executable ser lsd = .ok v) ∧
    (∀ self operation schema executable ser v,
      score_operation self fuel operation schema executable ser = .ok v →
      score_operation self (fuel + 1) operation schema executable ser = .ok v) ∧
    (∀ self operations schema query ser v,
      estimated_named self fuel operations schema query ser = .ok v →
      estimated_named self (fuel + 1) operations schema query ser = .ok v) ∧
    (∀ self query schema ser v,
      estimated self fuel query schema ser = .ok v →
      estimated self (fuel + 1) query schema ser = .ok v) := by
  intro fuel
  induction fuel with
  | zero =>
    refine ⟨?_, ?_, ?_, ?_, ?_, ?_, ?_, ?_, ?_⟩
    · intro _ _ _ _ _ _ _ _ h
      exact absurd h (by rw [score_field]; simp)
    · intro _ _ _ _ _ _ _ _ h
      exact absurd h (by rw [field_requirements_cost]; simp)
    · intro _ _ _ _ _ _ _ _ h
      exact absurd h (by rw [score_fragment_spread]; simp)
    · intro _ _ _ _ _ _ _ _ h
      exact absurd h (by rw [score_inline_fragment]; simp)
    · intro _ _ _ _ _ _ _ _ h
      exact absurd h (by rw [score_selection]; simp)
    · intro _ _ _ _ _ _ _ _ h
      exact absurd h (by rw [score_selection_set]; simp)
    · intro _ _ _ _ _ _ h
      exact absurd h (by rw [score_operation]; simp)
    · intro _ _ _ _ _ _ h
      exact absurd h (by rw [estimated_named]; simp)
    · intro _ _ _ _ _ h
      exact absurd h (by rw [estimated]; simp)
  | succ fu ih =>
    obtain ⟨ih_field, ih_req, ih_frag, ih_inline, ih_sel, ih_sss, ih_op, ih_named, ih_est⟩ := ih
    refine ⟨?_, ?_, ?_, ?_, ?_, ?_, ?_, ?_, ?_⟩
    · intro self field parent_type schema executable ser up v h
      rw [score_field] at h ⊢
      split at h
      · rename_i hcond
        rw [if_pos hcond]
        exact h
      · rename_i hcond
        rw [if_neg hcond]
        split at h
        · exact absurd h (by simp)
        · split at h
          · exact absurd h (by simp)
          · split at h
            · exact absurd h (by simp)
            · obtain ⟨sel, hsel, h⟩ := result_bind_eq_ok h
              obtain ⟨ac, hac, h⟩ := result_bind_eq_ok h
              obtain ⟨rc, hrc, h⟩ := result_bind_eq_ok h
              rw [ih_sss _ _ _ _ _ _ _ _ hsel]
              simp only [result_bind_ok]
              rw [(fuel_mono_arguments fu).2.2.2 _ _ _ _ hac]
              simp only [result_bind_ok]
              rw [ih_req _ _ _ _ _ _ _ _ hrc]
              simpa using h
    · intro self field parent_type schema executable ser lsd v h
      rw [field_requirements_cost] at h ⊢
      split at h
      · rename_i hser
        rw [if_pos hser]
        split at h
        · exact ih_sss _ _ _ _ _ _ _ _ h
        · exact h
      · rename_i hser
        rw [if_neg hser]
        exact h
    · intro self fragment_name parent_type schema executable ser lsd v h
      rw [score_fragment_spread] at h ⊢
      split at h
      · exact absurd h (by simp)
      · exact ih_sss _ _ _ _ _ _ _ _ h
    · intro self selection_set parent_type schema executable ser lsd v h
      rw [score_inline_fragment] at h ⊢
      exact ih_sss _ _ _ _ _ _ _ _ h
    · intro self selection parent_type schema executable ser lsd v h
      rw [score_selection_succ] at h ⊢
      split at h
      · exact ih_field _ _ _ _ _ _ _ _ h
      · exact ih_frag _ _ _ _ _ _ _ _ h
      · exact ih_inline _ _ _ _ _ _ _ _ h
    · intro self selection_set parent_type schema executable ser lsd v h
      rw [score_selection_set_succ] at h ⊢
      split at h
      · exact h
      · obtain ⟨c, hc, h⟩ := result_bind_eq_ok h
        obtain ⟨crest, hcrest, h⟩ := result_bind_eq_ok h
        rw [ih_sel _ _ _ _ _ _ _ _ hc]
        simp only [result_bind_ok]
        rw [ih_sss _ _ _ _ _ _ _ _ hcrest]
        simpa using h
    · intro self operation schema executable ser v h
      rw [score_operation] at h ⊢
      split at h
      · exact absurd h (by simp)
      · obtain ⟨s, hs, h⟩ := result_bind_eq_ok h
        rw [ih_sss _ _ _ _ _ _ _ _ hs]
        simpa using h
    · intro self operations schema query ser v h
      rw [estimated_named_succ] at h ⊢
      split at h
      · exact h
      · obtain ⟨c, hc, h⟩ := result_bind_eq_ok h
        obtain ⟨crest, hcrest, h⟩ := result_bind_eq_ok h
        rw [ih_op _ _ _ _ _ _ hc]
        simp only [result_bind_ok]
        rw [ih_named _ _ _ _ _ _ hcrest]
        simpa using h
    · intro self query schema ser v h
      rw [estimated] at h ⊢
      cases hanon : query.anonymous with
      | some op =>
        rw [hanon] at h
        obtain ⟨a, ha, h⟩ := result_bind_eq_ok h
        obtain ⟨n, hn, h⟩ := result_bind_eq_ok h
        show (score_operation self (fu + 1) op schema query ser >>= fun anonymous_cost =>
          estimated_named self (fu + 1) query.named schema query ser >>= fun named_cost =>
          pure (anonymous_cost + named_cost)) = Result.ok v
        rw [ih_op _ _ _ _ _ _ ha]
        simp only [result_bind_ok]
        rw [ih_named _ _ _ _ _ _ hn]
        simpa using h
      | none =>
        rw [hanon] at h
        obtain ⟨a, ha, h⟩ := result_bind_eq_ok h
        obtain ⟨n, hn, h⟩ := result_bind_eq_ok h
        show (pure (0 : Cost) >>= fun anonymous_cost =>
          estimated_named self (fu + 1) query.named schema query ser >>= fun named_cost =>
          pure (anonymous_cost + named_cost)) = (Result.ok v : Result Cost)
        simp only [result_pure, result_bind_ok]
        rw [ih_named _ _ _ _ _ _ hn]
        simp only [result_pure, Result.ok.injEq] at ha h
        rw [← ha] at h
        simpa using h



theorem score_operation_mono_le {self : StaticCostCalculator} {operation : Operation}
    {schema : Schema} {executable : ExecutableDocument} {ser : Bool} {v : Cost}
    {fu fu2 : Nat} (hle : fu ≤ fu2)
    (h : score_operation self fu operation schema executable ser = .ok v) :
    score_operation self fu2 operation schema executable ser = .ok v := by
  induction fu2, hle using Nat.le_induction with
  | base => exact h
  | succ n hn ih => exact (fuel_mono_document n).2.2.2.2.2.2.1 _ _ _ _ _ _ ih

theorem estimated_mono_le {self : StaticCostCalculator} {query : ExecutableDocument}
    {schema : Schema} {ser : Bool} {v : Cost} {fu fu2 : Nat} (hle : fu ≤ fu2)
    (h : estimated self fu query schema ser = .ok v) :
    estimated self fu2 query schema ser = .ok v := by
  induction fu2, hle using Nat.le_induction with
  | base => exact h
  | succ n hn ih => exact (fuel_mono_document n).2.2.2.2.2.2.2.2 _ _ _ _ _ ih

/-! Non-negativity under non-negative schema weights. -/

theorem nonneg_getD {w : Option Cost} (h : NonnegOptCost w) {d : Cost} (hd : 0 ≤ d) :
    0 ≤ w.getD d := by
  cases w with
  | none => simpa using hd
  | some q => simpa using h q rfl

theorem mem_of_lookup_eq_some {α β : Type} [BEq α] [LawfulBEq α] {l : List (α × β)}
    {k : α} {b : β} (h : l.lookup k = some b) : (k, b) ∈ l := by
  obtain ⟨l₁, l₂, rfl, -⟩ := List.lookup_eq_some_iff.mp h
  simp

theorem mem_of_argument_by_name {definition : FieldDefinition} {name : String}
    {a : InputValueDefinition} (h : definition.argument_by_name name = some a) :
    a ∈ definition.arguments :=
  List.mem_of_find?_eq_some h

theorem nonneg_arguments : ∀ fuel : Nat,
    (∀ argument argument_definition schema v, SchemaNonneg schema →
      NonnegOptCost argument_definition.cost_directive →
      score_argument fuel argument argument_definition schema = .ok v → 0 ≤ v) ∧
    (∀ inner_args inner_arg_defs schema cost v, SchemaNonneg schema →
      (∀ p ∈ inner_arg_defs, NonnegOptCost (p : String × InputValueDefinition).2.cost_directive) →
      0 ≤ cost →
      score_argument_fields fuel inner_args inner_arg_defs schema cost = .ok v → 0 ≤ v) ∧
    (∀ inner_args argument_definition schema cost v, SchemaNonneg schema →
      NonnegOptCost argument_definition.cost_directive → 0 ≤ cost →
      score_argument_list fuel inner_args argument_definition schema cost = .ok v → 0 ≤ v) ∧
    (∀ arguments definition schema v, SchemaNonneg schema →
      (∀ a ∈ definition.arguments, NonnegOptCost (a : InputValueDefinition).cost_directive) →
      field_arguments_cost fuel arguments definition schema = .ok v → 0 ≤ v) ∧
    (∀ definition arguments schema, SchemaNonneg schema →
      (∀ fdef, definition = some fdef →
        ∀ a ∈ (fdef : FieldDefinition).arguments, NonnegOptCost a.cost_directive) →
      0 ≤ visit_field_arguments fuel definition arguments schema) := by
  intro fuel
  induction fuel with
  | zero =>
    refine ⟨?_, ?_, ?_, ?_, ?_⟩
    · intro _ _ _ _ _ _ h
      exact absurd h (by rw [score_argument]; simp)
    · intro _ _ _ _ _ _ _ _ h
      exact absurd h (by rw [score_argument_fields]; simp)
    · intro _ _ _ _ _ _ _ _ h
      exact absurd h (by rw [score_argument_list]; simp)
    · intro _ _ _ _ _ _ h
      exact absurd h (by rw [field_arguments_cost]; simp)
    · intro _ _ _ _ _
      rw [visit_field_arguments]
  | succ fu ih =>
    obtain ⟨ih_arg, ih_fields, ih_list, ih_fac, ih_vfa⟩ := ih
    refine ⟨?_, ?_, ?_, ?_, ?_⟩
    · intro argument argument_definition schema v hs hd h
      rw [score_argument] at h
      split at h
      · exact absurd h (by simp)
      case _ ty hty =>
        split at h
        · exact absurd h (by simp)
        · exact absurd h (by simp)
        · exact absurd h (by simp)
        case _ inner_args inner_arg_defs =>
          exact ih_fields _ _ _ _ _ hs
            (fun p hp => hs.input_object_cost _ _ hty p hp)
            (nonneg_getD hd (by norm_num)) h
        case _ inner_args =>
          exact ih_list _ _ _ _ _ hs hd (nonneg_getD hd le_rfl) h
        · simp only [Result.ok.injEq] at h
          rw [← h]
        · simp only [Result.ok.injEq] at h
          rw [← h]
          exact nonneg_getD hd le_rfl
    · intro inner_args inner_arg_defs schema cost v hs hdefs hcost h
      rw [score_argument_fields_succ] at h
      split at h
      · simp only [Result.ok.injEq] at h
        rw [← h]
        exact hcost
      case _ arg_name arg_val rest =>
        split at h
        · exact absurd h (by simp)
        case _ arg_def hlook =>
          obtain ⟨c, hc, h⟩ := result_bind_eq_ok h
          have hmem : (arg_name, arg_def) ∈ inner_arg_defs := mem_of_lookup_eq_some hlook
          have hcn : 0 ≤ c := ih_arg _ _ _ _ hs (hdefs _ hmem) hc
          exact ih_fields _ _ _ _ _ hs hdefs (by positivity) h
    · intro inner_args argument_definition schema cost v hs hd hcost h
      rw [score_argument_list_succ] at h
      split at h
      · simp only [Result.ok.injEq] at h
        rw [← h]
        exact hcost
      case _ arg_val rest =>
        obtain ⟨c, hc, h⟩ := result_bind_eq_ok h
        have hcn : 0 ≤ c := ih_arg _ _ _ _ hs hd hc
        exact ih_list _ _ _ _ _ hs hd (by positivity) h
    · intro arguments definition schema v hs hdefs h
      rw [field_arguments_cost_succ] at h
      split at h
      · simp only [Result.ok.injEq] at h
        rw [← h]
      case _ argument_name argument_value rest =>
        split at h
        · exact absurd h (by simp)
        case _ argument_definition hlook =>
          obtain ⟨c, hc, h⟩ := result_bind_eq_ok h
          obtain ⟨crest, hcrest, h⟩ := result_bind_eq_ok h
          simp only [result_pure, Result.ok.injEq] at h
          have hcn : 0 ≤ c :=
            ih_arg _ _ _ _ hs (hdefs _ (mem_of_argument_by_name hlook)) hc
          have hrn : 0 ≤ crest := ih_fac _ _ _ _ hs hdefs hcrest
          rw [← h]
          positivity
    · intro definition arguments schema hs hdefs
      rw [visit_field_arguments_succ]
      split
      · norm_num
      case _ argument_name argument_value rest =>
        have hrest : 0 ≤ visit_field_arguments fu definition rest schema := ih_vfa _ _ _ hs hdefs
        refine add_nonneg ?_ hrest
        cases definition with
        | none => norm_num
        | some fdef =>
          have hargs : ∀ a ∈ fdef.arguments, NonnegOptCost a.cost_directive := hdefs fdef rfl
          cases hlook : fdef.argument_by_name argument_name with
          | none => simp [hlook]
          | some argument_definition =>
            simp only [hlook]
            cases hsc : score_argument fu argument_value argument_definition schema with
            | ok score =>
              simp only [hsc]
              exact ih_arg _ _ _ _ hs (hargs _ (mem_of_argument_by_name hlook)) hsc
            | error e => simp [hsc]

theorem score_field_skipped {self : StaticCostCalculator} {fuel : Nat} {field : Field}
    {parent_type : String} {schema : Schema} {executable : ExecutableDocument}
    {should_estimate_requires : Bool} {list_size_from_upstream : Option Int}
    (h : skipped_by_directives field = true) :
    score_field self (fuel + 1) field parent_type schema executable
      should_estimate_requires list_size_from_upstream = .ok 0 := by
  rw [score_field]
  simp [h]

theorem score_field_ok_elim {self : StaticCostCalculator} {fuel : Nat} {field : Field}
    {parent_type : String} {schema : Schema} {executable : ExecutableDocument}
    {should_estimate_requires : Bool} {list_size_from_upstream : Option Int} {v : Cost}
    (hskip : skipped_by_directives field = false)
    (h : score_field self (fuel + 1) field parent_type schema executable
      should_estimate_requires list_size_from_upstream = .ok v) :
    ∃ definition ty lsd selection_set_cost arguments_cost requirements_cost,
      schema.type_field parent_type field.name = some definition ∧
      schema.types field.ty.inner_named_type = some ty ∧
      resolved_list_size_directive schema parent_type field = .ok lsd ∧
      score_selection_set self fuel field.selection_set field.ty.inner_named_type schema
        executable should_estimate_requires lsd = .ok selection_set_cost ∧
      field_arguments_cost fuel field.arguments definition schema = .ok arguments_cost ∧
      field_requirements_cost self fuel field parent_type schema executable
        should_estimate_requires lsd = .ok requirements_cost ∧
      v = ((claimed_instance_count self field list_size_from_upstream
              (lsd.bind (fun dir => dir.expected_size)) : Int) : Cost)
            * (claimed_type_cost_base schema parent_type field ty + selection_set_cost)
          + arguments_cost + requirements_cost := by
  rw [score_field] at h
  simp only [hskip, Bool.false_eq_true, if_false] at h
  split at h
  · simp at h
  case _ definition hdef =>
    split at h
    · simp at h
    case _ ty hty =>
      split at h
      · simp at h
      case _ lsd hlsd =>
        obtain ⟨selection_set_cost, hsel, h⟩ := result_bind_eq_ok h
        obtain ⟨arguments_cost, hargs, h⟩ := result_bind_eq_ok h
        obtain ⟨requirements_cost, hreq, h⟩ := result_bind_eq_ok h
        simp only [result_pure, Result.ok.injEq] at h
        refine ⟨definition, ty, lsd, selection_set_cost, arguments_cost, requirements_cost,
          hdef, hty, hlsd, hsel, hargs, hreq, ?_⟩
        rw [← h]
        rfl

theorem resolved_list_size_directive_nonneg {schema : Schema} {parent_type : String}
    {field : Field} {lsd : Option ListSizeDirective} (hs : SchemaNonneg schema)
    (h : resolved_list_size_directive schema parent_type field = .ok lsd) :
    NonnegOptDir lsd := by
  rw [resolved_list_size_directive] at h
  split at h
  case _ dd hdd =>
    split at h
    case _ resolved hres =>
      simp only [Result.ok.injEq] at h
      intro dir hdir
      rw [← h] at hdir
      simp only [Option.some.injEq] at hdir
      rw [← hdir]
      exact hs.list_size _ _ _ hdd _ _ hres
    · simp at h
  · simp only [Result.ok.injEq] at h
    intro dir hdir
    rw [← h] at hdir
    simp at hdir

theorem size_of_nonneg {lsd : Option ListSizeDirective} {f : Field}
    (h : NonnegOptDir lsd) :
    NonnegOptSize (lsd.bind (fun dir => dir.size_of f)) := by
  intro n hn
  cases lsd with
  | none => simp at hn
  | some dir =>
    simp only [Option.some_bind] at hn
    rw [ListSizeDirective.size_of] at hn
    split at hn
    · exact h dir rfl n hn
    · simp at hn

theorem expected_size_nonneg {lsd : Option ListSizeDirective} (h : NonnegOptDir lsd) :
    NonnegOptSize (lsd.bind (fun dir => dir.expected_size)) := by
  intro n hn
  cases lsd with
  | none => simp at hn
  | some dir =>
    simp only [Option.some_bind] at hn
    exact h dir rfl n hn

theorem i32_of_u32_small {n : Nat} (h : n < 2 ^ 31) : i32_of_u32 n = (n : Int) := by
  have h32 : n % 2 ^ 32 = n := Nat.mod_eq_of_lt (lt_trans h (by norm_num))
  rw [i32_of_u32, h32, if_pos h]

theorem claimed_instance_count_nonneg {self : StaticCostCalculator} {field : Field}
    {up own : Option Int} (hfit : DefaultListSizeFits self)
    (hup : NonnegOptSize up) (hown : NonnegOptSize own) :
    0 ≤ claimed_instance_count self field up own := by
  rw [claimed_instance_count.eq_def]
  cases hl : field.ty.is_list with
  | false => simp [hl]
  | true =>
    cases up with
    | some value => simpa [hl] using hup value rfl
    | none =>
      cases own with
      | some value => simpa [hl] using hown value rfl
      | none => simp [hl, i32_of_u32_small hfit]

theorem claimed_type_cost_base_nonneg {schema : Schema} {parent_type : String}
    {field : Field} {ty : ExtendedType} (hs : SchemaNonneg schema) :
    0 ≤ claimed_type_cost_base schema parent_type field ty := by
  rw [claimed_type_cost_base]
  split
  case _ weight hw => exact hs.field_cost _ _ _ hw
  · split <;> norm_num

theorem nonneg_document : ∀ fuel : Nat,
    (∀ self field parent_type schema executable ser up v, SchemaNonneg schema →
      DefaultListSizeFits self →
      NonnegOptSize up →
      score_field self fuel field parent_type schema executable ser up = .ok v → 0 ≤ v) ∧
    (∀ self field parent_type schema executable ser lsd v, SchemaNonneg schema →
      DefaultListSizeFits self →
      NonnegOptDir lsd →
      field_requirements_cost self fuel field parent_type schema executable ser lsd = .ok v →
      0 ≤ v) ∧
    (∀ self fragment_name parent_type schema executable ser lsd v, SchemaNonneg schema →
      DefaultListSizeFits self →
      NonnegOptDir lsd →
      score_fragment_spread self fuel fragment_name parent_type schema executable ser lsd =
        .ok v → 0 ≤ v) ∧
    (∀ self selection_set parent_type schema executable ser lsd v, SchemaNonneg schema →
      DefaultListSizeFits self →
      NonnegOptDir lsd →
      score_inline_fragment self fuel selection_set parent_type schema executable ser lsd =
        .ok v → 0 ≤ v) ∧
    (∀ self selection parent_type schema executable ser lsd v, SchemaNonneg schema →
      DefaultListSizeFits self →
      NonnegOptDir lsd →
      score_selection self fuel selection parent_type schema executable ser lsd = .ok v →
      0 ≤ v) ∧
    (∀ self selection_set parent_type schema executable ser lsd v, SchemaNonneg schema →
      DefaultListSizeFits self →
      NonnegOptDir lsd →
      score_selection_set self fuel selection_set parent_type schema executable ser lsd =
        .ok v → 0 ≤ v) ∧
    (∀ self operation schema executable ser v, SchemaNonneg schema →
      DefaultListSizeFits self →
      score_operation self fuel operation schema executable ser = .ok v → 0 ≤ v) ∧
    (∀ self operations schema query ser v, SchemaNonneg schema →
      DefaultListSizeFits self →
      estimated_named self fuel operations schema query ser = .ok v → 0 ≤ v) ∧
    (∀ self query schema ser v, SchemaNonneg schema →
      DefaultListSizeFits self →
      estimated self fuel query schema ser = .ok v → 0 ≤ v) := by
  intro fuel
  induction fuel with
  | zero =>
    refine ⟨?_, ?_, ?_, ?_, ?_, ?_, ?_, ?_, ?_⟩
    · intro _ _ _ _ _ _ _ _ _ _ _ h
      exact absurd h (by rw [score_field]; simp)
    · intro _ _ _ _ _ _ _ _ _ _ _ h
      exact absurd h (by rw [field_requirements_cost]; simp)
    · intro _ _ _ _ _ _ _ _ _ _ _ h
      exact absurd h (by rw [score_fragment_spread]; simp)
    · intro _ _ _ _ _ _ _ _ _ _ _ h
      exact absurd h (by rw [score_inline_fragment]; simp)
    · intro _ _ _ _ _ _ _ _ _ _ _ h
      exact absurd h (by rw [score_selection]; simp)
    · intro _ _ _ _ _ _ _ _ _ _ _ h
      exact absurd h (by rw [score_selection_set]; simp)
    · intro _ _ _ _ _ _ _ _ h
      exact absurd h (by rw [score_operation]; simp)
    · intro _ _ _ _ _ _ _ _ h
      exact absurd h (by rw [estimated_named]; simp)
    · intro _ _ _ _ _ _ _ h
      exact absurd h (by rw [estimated]; simp)
  | succ fu ih =>
    obtain ⟨ih_field, ih_req, ih_frag, ih_inline, ih_sel, ih_sss, ih_op, ih_named, ih_est⟩ := ih
    refine ⟨?_, ?_, ?_, ?_, ?_, ?_, ?_, ?_, ?_⟩
    · intro self field parent_type schema executable ser up v hs hfit hup h
      by_cases hsk : skipped_by_directives field
      · rw [score_field_skipped hsk] at h
        simp only [Result.ok.injEq] at h
        rw [← h]
      · obtain ⟨definition, ty, lsd, sel, ac, rc, hdef, hty, hlsd, hsel, hargs, hreq, hv⟩ :=
          score_field_ok_elim (Bool.not_eq_true _ ▸ hsk) h
        have hdir : NonnegOptDir lsd := resolved_list_size_directive_nonneg hs hlsd
        have h1 : 0 ≤ claimed_instance_count self field up
            (lsd.bind (fun dir => dir.expected_size)) :=
          claimed_instance_count_nonneg hfit hup (expected_size_nonneg hdir)
        have h2 : 0 ≤ claimed_type_cost_base schema parent_type field ty :=
          claimed_type_cost_base_nonneg hs
        have h3 : 0 ≤ sel := ih_sss _ _ _ _ _ _ _ _ hs hfit hdir hsel
        have h4 : 0 ≤ ac :=
          (nonneg_arguments fu).2.2.2.1 _ _ _ _ hs (hs.argument_cost _ _ _ hdef) hargs
        have h5 : 0 ≤ rc := ih_req _ _ _ _ _ _ _ _ hs hfit hdir hreq
        rw [hv]
        have hic : (0 : Cost) ≤ ((claimed_instance_count self field up
            (lsd.bind (fun dir => dir.expected_size)) : Int) : Cost) := by
          exact_mod_cast h1
        have := mul_nonneg hic (add_nonneg h2 h3)
        positivity
    · intro self field parent_type schema executable ser lsd v hs hfit hdir h
      rw [field_requirements_cost] at h
      split at h
      · split at h
        · exact ih_sss _ _ _ _ _ _ _ _ hs hfit hdir h
        · simp only [Result.ok.injEq] at h
          rw [← h]
      · simp only [Result.ok.injEq] at h
        rw [← h]
    · intro self fragment_name parent_type schema executable ser lsd v hs hfit hdir h
      rw [score_fragment_spread] at h
      split at h
      · simp at h
      · exact ih_sss _ _ _ _ _ _ _ _ hs hfit hdir h
    · intro self selection_set parent_type schema executable ser lsd v hs hfit hdir h
      rw [score_inline_fragment] at h
      exact ih_sss _ _ _ _ _ _ _ _ hs hfit hdir h
    · intro self selection parent_type schema executable ser lsd v hs hfit hdir h
      rw [score_selection_succ] at h
      split at h
      · exact ih_field _ _ _ _ _ _ _ _ hs hfit (size_of_nonneg hdir) h
      · exact ih_frag _ _ _ _ _ _ _ _ hs hfit hdir h
      · exact ih_inline _ _ _ _ _ _ _ _ hs hfit hdir h
    · intro self selection_set parent_type schema executable ser lsd v hs hfit hdir h
      rw [score_selection_set_succ] at h
      split at h
      · simp only [Result.ok.injEq] at h
        rw [← h]
      · obtain ⟨c, hc, h⟩ := result_bind_eq_ok h
        obtain ⟨crest, hcrest, h⟩ := result_bind_eq_ok h
        simp only [result_pure, Result.ok.injEq] at h
        have h1 : 0 ≤ c := ih_sel _ _ _ _ _ _ _ _ hs hfit hdir hc
        have h2 : 0 ≤ crest := ih_sss _ _ _ _ _ _ _ _ hs hfit hdir hcrest
        rw [← h]
        positivity
    · intro self operation schema executable ser v hs hfit h
      rw [score_operation] at h
      split at h
      · simp at h
      · obtain ⟨s, hs2, h⟩ := result_bind_eq_ok h
        simp only [result_pure, Result.ok.injEq] at h
        have h1 : 0 ≤ s := ih_sss _ _ _ _ _ _ _ _ hs hfit (by intro dir hdir; simp at hdir) hs2
        rw [← h]
        split <;> positivity
    · intro self operations schema query ser v hs hfit h
      rw [estimated_named_succ] at h
      split at h
      · simp only [Result.ok.injEq] at h
        rw [← h]
      · obtain ⟨c, hc, h⟩ := result_bind_eq_ok h
        obtain ⟨crest, hcrest, h⟩ := result_bind_eq_ok h
        simp only [result_pure, Result.ok.injEq] at h
        have h1 : 0 ≤ c := ih_op _ _ _ _ _ _ hs hfit hc
        have h2 : 0 ≤ crest := ih_named _ _ _ _ _ _ hs hfit hcrest
        rw [← h]
        positivity
    · intro self query schema ser v hs hfit h
      rw [estimated] at h
      cases hanon : query.anonymous with
      | some op =>
        rw [hanon] at h
        obtain ⟨a, ha, h⟩ := result_bind_eq_ok h
        obtain ⟨n, hn, h⟩ := result_bind_eq_ok h
        simp only [result_pure, Result.ok.injEq] at h
        have h1 : 0 ≤ a := ih_op _ _ _ _ _ _ hs hfit ha
        have h2 : 0 ≤ n := ih_named _ _ _ _ _ _ hs hfit hn
        rw [← h]
        positivity
      | none =>
        rw [hanon] at h
        obtain ⟨a, ha, h⟩ := result_bind_eq_ok h
        obtain ⟨n, hn, h⟩ := result_bind_eq_ok h
        simp only [result_pure, Result.ok.injEq] at ha h
        have h2 : 0 ≤ n := ih_named _ _ _ _ _ _ hs hfit hn
        rw [← h, ← ha]
        positivity

theorem nonneg_plan : ∀ fuel : Nat,
    (∀ self plan_node v, SubgraphsNonneg self →
      DefaultListSizeFits self →
      score_plan_node self fuel plan_node = .ok v → 0 ≤ v) ∧
    (∀ self subgraph operation v, SubgraphsNonneg self →
      DefaultListSizeFits self →
      estimated_cost_of_operation self fuel subgraph operation = .ok v → 0 ≤ v) ∧
    (∀ self left right v, SubgraphsNonneg self →
      DefaultListSizeFits self →
      max_score_of_nodes self fuel left right = .ok v → 0 ≤ v) ∧
    (∀ self primary deferred v, SubgraphsNonneg self →
      DefaultListSizeFits self →
      summed_score_of_deferred_nodes self fuel primary deferred = .ok v → 0 ≤ v) ∧
    (∀ self nodes v, SubgraphsNonneg self →
      DefaultListSizeFits self →
      summed_score_of_optional_nodes self fuel nodes = .ok v → 0 ≤ v) ∧
    (∀ self nodes v, SubgraphsNonneg self →
      DefaultListSizeFits self →
      summed_score_of_nodes self fuel nodes = .ok v → 0 ≤ v) := by
  intro fuel
  induction fuel with
  | zero =>
    refine ⟨?_, ?_, ?_, ?_, ?_, ?_⟩
    · intro _ _ _ _ _ h
      exact absurd h (by rw [score_plan_node]; simp)
    · intro _ _ _ _ _ _ h
      exact absurd h (by rw [estimated_cost_of_operation]; simp)
    · intro _ _ _ _ _ _ h
      exact absurd h (by rw [max_score_of_nodes]; simp)
    · intro _ _ _ _ _ _ h
      exact absurd h (by rw [summed_score_of_deferred_nodes]; simp)
    · intro _ _ _ _ _ h
      exact absurd h (by rw [summed_score_of_optional_nodes]; simp)
    · intro _ _ _ _ _ h
      exact absurd h (by rw [summed_score_of_nodes]; simp)
  | succ fu ih =>
    obtain ⟨ih_node, ih_eco, ih_max, ih_defer, ih_opt, ih_nodes⟩ := ih
    refine ⟨?_, ?_, ?_, ?_, ?_, ?_⟩
    · intro self plan_node v hsub hfit h
      rw [score_plan_node_succ] at h
      split at h
      · exact ih_nodes _ _ _ hsub hfit h
      · exact ih_nodes _ _ _ hsub hfit h
      · exact ih_node _ _ _ hsub hfit h
      · exact ih_max _ _ _ _ hsub hfit h
      · exact ih_defer _ _ _ _ hsub hfit h
      · exact ih_eco _ _ _ _ hsub hfit h
      · exact ih_eco _ _ _ _ hsub hfit h
    · intro self subgraph operation v hsub hfit h
      rw [estimated_cost_of_operation] at h
      split at h
      · simp at h
      case _ schema hget =>
        split at h
        · simp at h
        case _ parsed_operation hparse =>
          exact (nonneg_document fu).2.2.2.2.2.2.2.2 _ _ _ _ _ (hsub _ _ hget) hfit h
    · intro self left right v hsub hfit h
      rw [max_score_of_nodes_succ] at h
      split at h
      · simp only [Result.ok.injEq] at h
        rw [← h]
      · exact ih_node _ _ _ hsub hfit h
      · exact ih_node _ _ _ hsub hfit h
      · obtain ⟨ls, hls, h⟩ := result_bind_eq_ok h
        obtain ⟨rs, hrs, h⟩ := result_bind_eq_ok h
        simp only [result_pure, Result.ok.injEq] at h
        have h1 : 0 ≤ ls := ih_node _ _ _ hsub hfit hls
        rw [← h]
        exact le_max_of_le_left h1
    · intro self primary deferred v hsub hfit h
      rw [summed_score_of_deferred_nodes_succ] at h
      cases primary with
      | some node =>
        obtain ⟨p, hp, h⟩ := result_bind_eq_ok h
        obtain ⟨d, hd, h⟩ := result_bind_eq_ok h
        simp only [result_pure, Result.ok.injEq] at h
        have h1 : 0 ≤ p := ih_node _ _ _ hsub hfit hp
        have h2 : 0 ≤ d := ih_opt _ _ _ hsub hfit hd
        rw [← h]
        positivity
      | none =>
        obtain ⟨p, hp, h⟩ := result_bind_eq_ok h
        obtain ⟨d, hd, h⟩ := result_bind_eq_ok h
        simp only [result_pure, Result.ok.injEq] at h hp
        have h2 : 0 ≤ d := ih_opt _ _ _ hsub hfit hd
        rw [← h, ← hp]
        positivity
    · intro self nodes v hsub hfit h
      rw [summed_score_of_optional_nodes_succ] at h
      split at h
      · simp only [Result.ok.injEq] at h
        rw [← h]
      · exact ih_opt _ _ _ hsub hfit h
      · obtain ⟨c, hc, h⟩ := result_bind_eq_ok h
        obtain ⟨crest, hcrest, h⟩ := result_bind_eq_ok h
        simp only [result_pure, Result.ok.injEq] at h
        have h1 : 0 ≤ c := ih_node _ _ _ hsub hfit hc
        have h2 : 0 ≤ crest := ih_opt _ _ _ hsub hfit hcrest
        rw [← h]
        positivity
    · intro self nodes v hsub hfit h
      rw [summed_score_of_nodes_succ] at h
      split at h
      · simp only [Result.ok.injEq] at h
        rw [← h]
      · obtain ⟨c, hc, h⟩ := result_bind_eq_ok h
        obtain ⟨crest, hcrest, h⟩ := result_bind_eq_ok h
        simp only [result_pure, Result.ok.injEq] at h
        have h1 : 0 ≤ c := ih_node _ _ _ hsub hfit hc
        have h2 : 0 ≤ crest := ih_nodes _ _ _ hsub hfit hcrest
        rw [← h]
        positivity

theorem nonneg_visitor : ∀ fuel : Nat,
    (∀ schema request parent_ty field value, SchemaNonneg schema →
      0 ≤ visit_field schema fuel request parent_ty field value) ∧
    (∀ schema request parent_ty field value, SchemaNonneg schema →
      0 ≤ visit_list_item schema fuel request parent_ty field value) ∧
    (∀ schema request parent_ty field items, SchemaNonneg schema →
      0 ≤ visit_array_items schema fuel request parent_ty field items) ∧
    (∀ schema request ty selection_set fields, SchemaNonneg schema →
      0 ≤ visit_selections schema fuel request ty selection_set fields) := by
  intro fuel
  induction fuel with
  | zero =>
    refine ⟨?_, ?_, ?_, ?_⟩
    · intro _ _ _ _ _ _
      rw [visit_field]
    · intro _ _ _ _ _ _
      rw [visit_list_item]
    · intro _ _ _ _ _ _
      rw [visit_array_items]
    · intro _ _ _ _ _ _
      rw [visit_selections]
  | succ fu ih =>
    obtain ⟨ih_vf, ih_vli, ih_vai, ih_vs⟩ := ih
    refine ⟨?_, ?_, ?_, ?_⟩
    · intro schema request parent_ty field value hs
      rw [visit_field]
      have h1 : 0 ≤ visit_list_item schema fu request parent_ty field value :=
        ih_vli _ _ _ _ _ hs
      have h2 : 0 ≤ visit_field_arguments fu (schema.type_field parent_ty field.name)
          field.arguments schema :=
        (nonneg_arguments fu).2.2.2.2 _ _ _ hs (fun fdef hdef => hs.argument_cost _ _ _ hdef)
      positivity
    · intro schema request parent_ty field value hs
      rw [visit_list_item_succ]
      have hw0 : 0 ≤ (schema.type_field_cost_directive parent_ty field.name).getD 0 :=
        nonneg_getD (hs.field_cost _ _) le_rfl
      have hw1 : 0 ≤ (schema.type_field_cost_directive parent_ty field.name).getD 1 :=
        nonneg_getD (hs.field_cost _ _) (by norm_num)
      cases value with
      | null => exact hw0
      | boolean b => exact hw0
      | number q => exact hw0
      | str s => exact hw0
      | array items => exact ih_vai _ _ _ _ _ hs
      | object children =>
        have h2 : 0 ≤ visit_selections schema fu request field.ty.inner_named_type
            field.selection_set children := ih_vs _ _ _ _ _ hs
        positivity
    · intro schema request parent_ty field items hs
      rw [visit_array_items_succ]
      cases items with
      | nil => norm_num
      | cons item rest =>
        have h1 : 0 ≤ visit_list_item schema fu request parent_ty field item :=
          ih_vli _ _ _ _ _ hs
        have h2 : 0 ≤ visit_array_items schema fu request parent_ty field rest :=
          ih_vai _ _ _ _ _ hs
        positivity
    · intro schema request ty selection_set fields hs
      rw [visit_selections_succ]
      cases selection_set with
      | nil => norm_num
      | cons selection rest =>
        have h2 : 0 ≤ visit_selections schema fu request ty rest fields := ih_vs _ _ _ _ _ hs
        refine add_nonneg ?_ h2
        cases selection with
        | field inner_field =>
          cases hlook : fields.lookup inner_field.name with
          | none => simp [hlook]
          | some value =>
            simp only [hlook]
            exact ih_vf _ _ _ _ _ hs
        | fragmentSpread fragment_name =>
          cases hfrag : request.fragments fragment_name with
          | none => simp [hfrag]
          | some fragment =>
            simp only [hfrag]
            exact ih_vs _ _ _ _ _ hs
        | inlineFragment type_condition inner_selection_set =>
          exact ih_vs _ _ _ _ _ hs

theorem nonneg_visit_named : ∀ (schema : Schema) (fuel : Nat) (request : ExecutableDocument)
    (operations : List (String × Operation)) (children : List (String × JsonValue)),
    SchemaNonneg schema →
    0 ≤ visit_named_operations schema fuel request operations children := by
  intro schema fuel request operations children hs
  induction operations with
  | nil => rw [visit_named_operations]
  | cons p rest ih =>
    rw [visit_named_operations]
    have h1 : 0 ≤ visit_selections schema fuel request p.2.selection_set_ty
        p.2.selection_set children := (nonneg_visitor fuel).2.2.2 _ _ _ _ _ hs
    positivity

theorem nonneg_visit (schema : Schema) (fuel : Nat) (request : ExecutableDocument)
    (response : Response) (hs : SchemaNonneg schema) :
    0 ≤ visit schema fuel request response := by
  rw [visit]
  split
  case _ children heq =>
    have h2 : 0 ≤ visit_named_operations schema fuel request request.named children :=
      nonneg_visit_named _ _ _ _ _ hs
    refine add_nonneg ?_ h2
    cases request.anonymous with
    | some operation => exact (nonneg_visitor fuel).2.2.2 _ _ _ _ _ hs
    | none => norm_num
  · norm_num

/-! Claim theorems, witnesses and counterexamples. -/

/-- C4 (amended): each of the three entry points returns, on every input on which it
succeeds, a non-negative cost, provided every Cost directive weight of the schemas in
play is non-negative, every resolved ListSize directive size is non-negative, and the
configured default list size is below 2^31 (the source puts no sign restriction on
directive weights, so the unamended claim fails -- see the counterexample -- and the
fallback instance count is the wrapping i32 cast of the u32 default, negative for
defaults at or above 2^31). -/
theorem c4_cost_nonneg (self : StaticCostCalculator)
    (hsup : SchemaNonneg self.supergraph_schema) (hsub : SubgraphsNonneg self)
    (hfit : DefaultListSizeFits self) :
    (∀ fuel query schema ser v, SchemaNonneg schema →
      estimated self fuel query schema ser = .ok v → 0 ≤ v) ∧
    (∀ fuel query_plan v, planned self fuel query_plan = .ok v → 0 ≤ v) ∧
    (∀ fuel request response v, actual self fuel request response = .ok v → 0 ≤ v) := by
  refine ⟨?_, ?_, ?_⟩
  · intro fuel query schema ser v hschema h
    exact (nonneg_document fuel).2.2.2.2.2.2.2.2 _ _ _ _ _ hschema hfit h
  · intro fuel query_plan v h
    exact (nonneg_plan fuel).1 _ _ _ hsub hfit h
  · intro fuel request response v h
    rw [actual] at h
    simp only [Result.ok.injEq] at h
    rw [← h]
    exact nonneg_visit _ _ _ _ hsup

theorem c4_counterexample :
    estimated calc_neg 6 doc_a schema_neg true = .ok (-1) ∧ ¬ ((0 : Cost) ≤ -1) := by
  constructor
  · simp [estimated, estimated_named, score_operation, score_selection_set, score_selection,
      score_field, field_arguments_cost, field_requirements_cost, resolved_list_size_directive,
      skipped_by_directives, include_directive_from_field, skip_directive_from_field,
      schema_neg, calc_neg, doc_a, field_a, Field.name, Field.ty, Field.arguments,
      Field.directives, Field.selection_set, GqlType.inner_named_type, GqlType.is_list,
      Operation.is_mutation, ExtendedType.is_interface, ExtendedType.is_object,
      ExtendedType.is_union]
  · norm_num

theorem c4_cost_nonneg_witness :
    SchemaNonneg calc_plain.supergraph_schema ∧ SubgraphsNonneg calc_plain ∧
    DefaultListSizeFits calc_plain ∧
    estimated calc_plain 6 doc_a schema_plain true = .ok 0 ∧ (0 : Cost) ≤ 0 := by
  have hs : SchemaNonneg schema_plain := by
    refine ⟨?_, ?_, ?_, ?_⟩
    · intro pt f q hq
      simp [schema_plain] at hq
    · intro pt f fd hfd a ha q hq
      simp only [schema_plain] at hfd
      split at hfd
      · simp only [Option.some.injEq] at hfd
        rw [← hfd] at ha
        simp [no_arguments_definition] at ha
      · simp at hfd
    · intro t fs hfs p hp q hq
      simp only [schema_plain] at hfs
      split at hfs
      · simp at hfs
      · split at hfs
        · simp at hfs
        · simp at hfs
    · intro pt f dd hdd
      simp [schema_plain] at hdd
  have hsub : SubgraphsNonneg calc_plain := by
    intro name schema hschema
    simp [calc_plain] at hschema
  have heval : estimated calc_plain 6 doc_a schema_plain true = .ok 0 := by
    simp [estimated, estimated_named, score_operation, score_selection_set, score_selection,
      score_field, field_arguments_cost, field_requirements_cost, resolved_list_size_directive,
      skipped_by_directives, include_directive_from_field, skip_directive_from_field,
      schema_plain, calc_plain, doc_a, field_a, Field.name, Field.ty, Field.arguments,
      Field.directives, Field.selection_set, GqlType.inner_named_type, GqlType.is_list,
      Operation.is_mutation, ExtendedType.is_interface, ExtendedType.is_object,
      ExtendedType.is_union]
  have hfit : DefaultListSizeFits calc_plain := by
    norm_num [DefaultListSizeFits, calc_plain]
  exact ⟨hs, hsub, hfit, heval,
    (c4_cost_nonneg calc_plain hs hsub hfit).1 6 doc_a schema_plain true 0 hs heval⟩

/-- C9: an argument whose literal value is Null scores 0.0 whenever score_argument
succeeds on it, regardless of any Cost directive on the argument definition (the only
other possible outcomes are the hard errors for unresolvable or disallowed argument
types). -/
theorem c9_null_argument_zero (fuel : Nat) (argument_definition : InputValueDefinition)
    (schema : Schema) (v : Cost)
    (h : score_argument (fuel + 1) .null argument_definition schema = .ok v) : v = 0 := by
  rw [score_argument] at h
  split at h
  · simp at h
  · split at h <;> simp_all

/-- Witness for C9 at a null literal whose definition carries a Cost directive of
weight 5: the score is still 0. -/
theorem c9_null_argument_zero_witness :
    score_argument 1 .null input_definition_costed schema_plain = .ok 0 ∧ (0 : Cost) = 0 := by
  have heval : score_argument 1 .null input_definition_costed schema_plain = .ok 0 := by
    simp [score_argument, input_definition_costed, schema_plain, GqlType.inner_named_type]
  exact ⟨heval, c9_null_argument_zero 0 input_definition_costed schema_plain 0 heval⟩

/-- C7 (amended): the plan-based score of a Condition node is 0.0 when both branches
are absent, the present branch's score when exactly one branch is present, and the
maximum of the two scores when both are present.  (The original claim said an absent
branch counts as 0.0 in the maximum; the source instead returns the present branch's
score directly, which differs from that maximum when the present branch's score is
negative -- see the counterexample.) -/
theorem c7_condition_characterization (self : StaticCostCalculator) (fuel : Nat)
    (cond : String) :
    (score_plan_node self (fuel + 2) (.condition cond none none) = .ok 0) ∧
    (∀ r, score_plan_node self (fuel + 2) (.condition cond none (some r)) =
      score_plan_node self fuel r) ∧
    (∀ l, score_plan_node self (fuel + 2) (.condition cond (some l) none) =
      score_plan_node self fuel l) ∧
    (∀ l r a b, score_plan_node self fuel l = .ok a → score_plan_node self fuel r = .ok b →
      score_plan_node self (fuel + 2) (.condition cond (some l) (some r)) = .ok (max a b)) := by
  refine ⟨?_, ?_, ?_, ?_⟩
  · simp only [score_plan_node_succ, max_score_of_nodes_succ]
  · intro r
    simp only [score_plan_node_succ, max_score_of_nodes_succ]
  · intro l
    simp only [score_plan_node_succ, max_score_of_nodes_succ]
  · intro l r a b hl hr
    simp only [score_plan_node_succ, max_score_of_nodes_succ, hl, hr]
    simp

/-- Counterexample to C7 as stated: a Condition node with no if branch whose else
branch scores -1 (a fetch against a subgraph schema with a Cost weight of -1) scores
-1, while the claimed maximum with an absent branch counted as 0.0 would be 0. -/
theorem c7_counterexample :
    score_plan_node calc_neg_subgraph 10 condition_node_neg = .ok (-1) ∧
    max (0 : Cost) (-1) = 0 ∧ (-1 : Cost) ≠ 0 := by
  refine ⟨?_, ?_, by norm_num⟩
  · simp [condition_node_neg, fetch_node_a, score_plan_node_succ, max_score_of_nodes_succ,
      estimated_cost_of_operation, SubgraphOperation.as_parsed, calc_neg_subgraph,
      estimated, estimated_named, score_operation, score_selection_set, score_selection,
      score_field, field_arguments_cost, field_requirements_cost, resolved_list_size_directive,
      skipped_by_directives, include_directive_from_field, skip_directive_from_field,
      schema_neg, doc_a, field_a, Field.name, Field.ty, Field.arguments,
      Field.directives, Field.selection_set, GqlType.inner_named_type, GqlType.is_list,
      Operation.is_mutation, ExtendedType.is_interface, ExtendedType.is_object,
      ExtendedType.is_union]
  · norm_num

/-- Witness for C7 (amended) on a Condition node with only an else branch. -/
theorem c7_condition_characterization_witness :
    score_plan_node calc_plain_subgraph 8 fetch_node_a = .ok 0 ∧
    score_plan_node calc_plain_subgraph 10 (.condition "c" none (some fetch_node_a)) =
      score_plan_node calc_plain_subgraph 8 fetch_node_a := by
  have heval : score_plan_node calc_plain_subgraph 8 fetch_node_a = .ok 0 := by
    simp [fetch_node_a, score_plan_node_succ, estimated_cost_of_operation,
      SubgraphOperation.as_parsed, calc_plain_subgraph,
      estimated, estimated_named, score_operation, score_selection_set, score_selection,
      score_field, field_arguments_cost, field_requirements_cost, resolved_list_size_directive,
      skipped_by_directives, include_directive_from_field, skip_directive_from_field,
      schema_plain, doc_a, field_a, Field.name, Field.ty, Field.arguments,
      Field.directives, Field.selection_set, GqlType.inner_named_type, GqlType.is_list,
      Operation.is_mutation, ExtendedType.is_interface, ExtendedType.is_object,
      ExtendedType.is_union]
  exact ⟨heval, (c7_condition_characterization calc_plain_subgraph 8 "c").2.1 fetch_node_a⟩

/-- C8: a Fetch node and the primary leg of a Subscription node are scored as the
estimated cost of the sub-operation against the named subgraph's schema with
requirement estimation disabled; a missing subgraph schema is a hard error, and a
sub-operation accessed before lazy initialization is the uninitialized error. -/
theorem c8_fetch_subscription_delegation (self : StaticCostCalculator) (fuel : Nat) :
    (∀ service_name operation,
      score_plan_node self (fuel + 1) (.fetch service_name operation) =
        estimated_cost_of_operation self fuel service_name operation) ∧
    (∀ primary rest,
      score_plan_node self (fuel + 1) (.subscription primary rest) =
        estimated_cost_of_operation self fuel primary.service_name primary.operation) ∧
    (∀ subgraph operation, self.subgraph_schemas subgraph = none →
      estimated_cost_of_operation self (fuel + 1) subgraph operation =
        .error (.queryParseFailure "query planner did not provide a schema for service")) ∧
    (∀ subgraph schema, self.subgraph_schemas subgraph = some schema →
      estimated_cost_of_operation self (fuel + 1) subgraph .unparsed =
        .error .subgraphOperationNotInitialized) ∧
    (∀ subgraph schema document, self.subgraph_schemas subgraph = some schema →
      estimated_cost_of_operation self (fuel + 1) subgraph (.parsed document) =
        estimated self fuel document schema false) := by
  refine ⟨?_, ?_, ?_, ?_, ?_⟩
  · intro service_name operation
    rw [score_plan_node_succ]
  · intro primary rest
    rw [score_plan_node_succ]
  · intro subgraph operation hnone
    rw [estimated_cost_of_operation, hnone]
  · intro subgraph schema hsome
    rw [estimated_cost_of_operation, hsome]
    rfl
  · intro subgraph schema document hsome
    rw [estimated_cost_of_operation, hsome]
    rfl

/-- Witness for C8 on a calculator with exactly the subgraph S. -/
theorem c8_fetch_subscription_delegation_witness :
    calc_plain_subgraph.subgraph_schemas "S" = some schema_plain ∧
    calc_plain_subgraph.subgraph_schemas "T" = none ∧
    score_plan_node calc_plain_subgraph 8 (.fetch "S" (.parsed doc_a)) =
      estimated_cost_of_operation calc_plain_subgraph 7 "S" (.parsed doc_a) ∧
    estimated_cost_of_operation calc_plain_subgraph 8 "T" (.parsed doc_a) =
      .error (.queryParseFailure "query planner did not provide a schema for service") ∧
    estimated_cost_of_operation calc_plain_subgraph 8 "S" .unparsed =
      .error .subgraphOperationNotInitialized ∧
    estimated_cost_of_operation calc_plain_subgraph 8 "S" (.parsed doc_a) =
      estimated calc_plain_subgraph 7 doc_a schema_plain false := by
  have hS : calc_plain_subgraph.subgraph_schemas "S" = some schema_plain := by
    simp [calc_plain_subgraph]
  have hT : calc_plain_subgraph.subgraph_schemas "T" = none := by
    simp [calc_plain_subgraph]
  exact ⟨hS, hT,
    (c8_fetch_subscription_delegation calc_plain_subgraph 7).1 "S" (.parsed doc_a),
    (c8_fetch_subscription_delegation calc_plain_subgraph 7).2.2.1 "T" (.parsed doc_a) hT,
    (c8_fetch_subscription_delegation calc_plain_subgraph 7).2.2.2.1 "S" schema_plain hS,
    (c8_fetch_subscription_delegation calc_plain_subgraph 7).2.2.2.2 "S" schema_plain doc_a hS⟩

/-- C1: for every field not excluded by skip or include directives on which
score_field succeeds, the cost equals instance_count * type_cost + arguments_cost +
requirements_cost, where the type cost is the field's Cost directive weight if
present, else 1.0 for an interface, object or union return type, else 0.0, plus the
recursive cost of the field's selection set scored against the field's named return
type (with the field's resolved ListSize directive as context). -/
theorem c1_field_cost_formula {self : StaticCostCalculator} {fuel : Nat} {field : Field}
    {parent_type : String} {schema : Schema} {executable : ExecutableDocument}
    {should_estimate_requires : Bool} {list_size_from_upstream : Option Int} {v : Cost}
    (hskip : skipped_by_directives field = false)
    (h : score_field self (fuel + 1) field parent_type schema executable
      should_estimate_requires list_size_from_upstream = .ok v) :
    ∃ definition ty lsd selection_set_cost arguments_cost requirements_cost,
      schema.type_field parent_type field.name = some definition ∧
      schema.types field.ty.inner_named_type = some ty ∧
      resolved_list_size_directive schema parent_type field = .ok lsd ∧
      score_selection_set self fuel field.selection_set field.ty.inner_named_type schema
        executable should_estimate_requires lsd = .ok selection_set_cost ∧
      field_arguments_cost fuel field.arguments definition schema = .ok arguments_cost ∧
      field_requirements_cost self fuel field parent_type schema executable
        should_estimate_requires lsd = .ok requirements_cost ∧
      v = ((claimed_instance_count self field list_size_from_upstream
              (lsd.bind (fun dir => dir.expected_size)) : Int) : Cost)
            * (claimed_type_cost_base schema parent_type field ty + selection_set_cost)
          + arguments_cost + requirements_cost :=
  score_field_ok_elim hskip h

/-- Witness for C1 on the plain schema and the scalar field a. -/
theorem c1_field_cost_formula_witness :
    skipped_by_directives field_a = false ∧
    score_field calc_plain 5 field_a "Query" schema_plain doc_a true none = .ok 0 ∧
    (∃ definition ty lsd selection_set_cost arguments_cost requirements_cost,
      schema_plain.type_field "Query" field_a.name = some definition ∧
      schema_plain.types field_a.ty.inner_named_type = some ty ∧
      resolved_list_size_directive schema_plain "Query" field_a = .ok lsd ∧
      score_selection_set calc_plain 4 field_a.selection_set field_a.ty.inner_named_type
        schema_plain doc_a true lsd = .ok selection_set_cost ∧
      field_arguments_cost 4 field_a.arguments definition schema_plain = .ok arguments_cost ∧
      field_requirements_cost calc_plain 4 field_a "Query" schema_plain doc_a true lsd =
        .ok requirements_cost ∧
      (0 : Cost) = ((claimed_instance_count calc_plain field_a none
              (lsd.bind (fun dir => dir.expected_size)) : Int) : Cost)
            * (claimed_type_cost_base schema_plain "Query" field_a ty + selection_set_cost)
          + arguments_cost + requirements_cost) := by
  have hskip : skipped_by_directives field_a = false := by
    simp [skipped_by_directives, include_directive_from_field, skip_directive_from_field,
      field_a, Field.directives]
  have heval : score_field calc_plain 5 field_a "Query" schema_plain doc_a true none = .ok 0 := by
    simp [score_field, score_selection_set, score_selection, field_arguments_cost,
      field_requirements_cost, resolved_list_size_directive, skipped_by_directives,
      include_directive_from_field, skip_directive_from_field, schema_plain, calc_plain,
      field_a, doc_a, Field.name, Field.ty, Field.arguments, Field.directives,
      Field.selection_set, GqlType.inner_named_type, GqlType.is_list,
      ExtendedType.is_interface, ExtendedType.is_object, ExtendedType.is_union]
  exact ⟨hskip, heval, c1_field_cost_formula hskip heval⟩

/-- C2 (amended): the instance count of a scored field is 1 when the field's type is
not a list and otherwise follows the strict precedence upstream ListSize resolution,
then the field's own ListSize expected size, then the wrapping i32 cast of the
configured global default (equal to the configured value exactly when the default is
below 2^31 -- the source computes list_size as i32 on a u32, so larger defaults wrap
negative, refuting the unamended final fallback; see the counterexample); and
score_selection supplies the upstream size for a field as the enclosing directive's
resolution for exactly that field. -/
theorem c2_instance_count (self : StaticCostCalculator) (fuel : Nat) :
    (∀ f parent_type schema executable ser lsd,
      score_selection self (fuel + 1) (.field f) parent_type schema executable ser lsd =
        score_field self fuel f parent_type schema executable ser
          (lsd.bind (fun dir => dir.size_of f))) ∧
    (∀ field parent_type schema executable ser up v,
      skipped_by_directives field = false →
      score_field self (fuel + 1) field parent_type schema executable ser up = .ok v →
      ∃ ty lsd selection_set_cost arguments_cost requirements_cost,
        schema.types field.ty.inner_named_type = some ty ∧
        resolved_list_size_directive schema parent_type field = .ok lsd ∧
        v = ((claimed_instance_count self field up
                (lsd.bind (fun dir => dir.expected_size)) : Int) : Cost)
              * (claimed_type_cost_base schema parent_type field ty + selection_set_cost)
            + arguments_cost + requirements_cost) ∧
    (∀ field up own, field.ty.is_list = false →
      claimed_instance_count self field up own = 1) ∧
    (∀ field own k, field.ty.is_list = true →
      claimed_instance_count self field (some k) own = k) ∧
    (∀ field e, field.ty.is_list = true →
      claimed_instance_count self field none (some e) = e) ∧
    (∀ field, field.ty.is_list = true →
      claimed_instance_count self field none none = i32_of_u32 self.list_size) ∧
    (∀ field, field.ty.is_list = true → self.list_size < 2 ^ 31 →
      claimed_instance_count self field none none = (self.list_size : Int)) := by
  refine ⟨?_, ?_, ?_, ?_, ?_, ?_, ?_⟩
  · intro f parent_type schema executable ser lsd
    rw [score_selection_succ]
  · intro field parent_type schema executable ser up v hskip h
    obtain ⟨definition, ty, lsd, sel, ac, rc, hdef, hty, hlsd, hsel, hargs, hreq, hv⟩ :=
      score_field_ok_elim hskip h
    exact ⟨ty, lsd, sel, ac, rc, hty, hlsd, hv⟩
  · intro field up own hl
    simp [claimed_instance_count.eq_def, hl]
  · intro field own k hl
    simp [claimed_instance_count.eq_def, hl]
  · intro field e hl
    simp [claimed_instance_count.eq_def, hl]
  · intro field hl
    simp [claimed_instance_count.eq_def, hl]
  · intro field hl hsmall
    simp [claimed_instance_count.eq_def, hl, i32_of_u32_small hsmall]

/-- Counterexample to C2 as stated: with the configured default list size 2^31 (a
representable u32) and a directive-free list field, the fallback instance count is
not the configured default but its wrapping i32 cast -2^31, and score_field returns
-2^31 for a list of objects. -/
theorem c2_counterexample :
    calc_big.list_size = 2 ^ 31 ∧
    claimed_instance_count calc_big field_objs none none = -(2 ^ 31) ∧
    score_field calc_big 4 field_objs "Query" schema_obj_list doc_objs true none =
      .ok (-(2 ^ 31)) ∧
    ¬ ((-(2 ^ 31) : Int) = ((2 ^ 31 : Nat) : Int)) := by
  refine ⟨rfl, ?_, ?_, by norm_num⟩
  · simp [claimed_instance_count.eq_def, calc_big, field_objs, Field.ty, GqlType.is_list,
      i32_of_u32]
  · simp [score_field, score_selection_set, field_arguments_cost, field_requirements_cost,
      resolved_list_size_directive, skipped_by_directives, include_directive_from_field,
      skip_directive_from_field, schema_obj_list, calc_big, field_objs, Field.name, Field.ty,
      Field.arguments, Field.directives, Field.selection_set, GqlType.inner_named_type,
      GqlType.is_list, ExtendedType.is_interface, ExtendedType.is_object,
      ExtendedType.is_union, i32_of_u32]
    norm_num

/-- Witness for C2 (amended) on the plain schema: the non-list field a has instance
count 1, score_selection dispatches with the parent directive's size for the field,
and the list field objs falls back to the wrapping cast of the default, which is the
configured 100 since 100 < 2^31. -/
theorem c2_instance_count_witness :
    field_a.ty.is_list = false ∧ field_objs.ty.is_list = true ∧
    calc_plain.list_size < 2 ^ 31 ∧
    claimed_instance_count calc_plain field_a none none = 1 ∧
    claimed_instance_count calc_plain field_objs none none = i32_of_u32 calc_plain.list_size ∧
    claimed_instance_count calc_plain field_objs none none = (calc_plain.list_size : Int) ∧
    (score_selection calc_plain 6 (.field field_a) "Query" schema_plain doc_a true none =
      score_field calc_plain 5 field_a "Query" schema_plain doc_a true
        ((none : Option ListSizeDirective).bind (fun dir => dir.size_of field_a))) := by
  have hl : field_a.ty.is_list = false := by
    simp [field_a, Field.ty, GqlType.is_list]
  have hll : field_objs.ty.is_list = true := by
    simp [field_objs, Field.ty, GqlType.is_list]
  have hsmall : calc_plain.list_size < 2 ^ 31 := by
    norm_num [calc_plain]
  exact ⟨hl, hll, hsmall, (c2_instance_count calc_plain 5).2.2.1 field_a none none hl,
    (c2_instance_count calc_plain 5).2.2.2.2.2.1 field_objs hll,
    (c2_instance_count calc_plain 5).2.2.2.2.2.2 field_objs hll hsmall,
    (c2_instance_count calc_plain 5).1 field_a "Query" schema_plain doc_a true none⟩

theorem estimated_named_sum {self : StaticCostCalculator} {schema : Schema}
    {query : ExecutableDocument} {ser : Bool} :
    ∀ (operations : List (String × Operation)) (fuel : Nat) (v : Cost),
    estimated_named self fuel operations schema query ser = .ok v →
    ∃ costs : List Cost,
      List.Forall₂ (fun p c => score_operation self fuel (Prod.snd p) schema query ser = .ok c)
        operations costs ∧ v = costs.sum := by
  intro operations
  induction operations with
  | nil =>
    intro fuel v h
    cases fuel with
    | zero => exact absurd h (by rw [estimated_named]; simp)
    | succ fu =>
      rw [estimated_named_succ] at h
      simp only [Result.ok.injEq] at h
      exact ⟨[], List.Forall₂.nil, by simp [← h]⟩
  | cons p rest ih =>
    intro fuel v h
    cases fuel with
    | zero => exact absurd h (by rw [estimated_named]; simp)
    | succ fu =>
      rw [estimated_named_succ] at h
      obtain ⟨c, hc, h⟩ := result_bind_eq_ok h
      obtain ⟨r, hr, h⟩ := result_bind_eq_ok h
      simp only [result_pure, Result.ok.injEq] at h
      obtain ⟨costs, hcosts, hsum⟩ := ih fu r hr
      refine ⟨c :: costs,
        List.Forall₂.cons ((fuel_mono_document fu).2.2.2.2.2.2.1 _ _ _ _ _ _ hc)
          (List.Forall₂.imp
            (fun a b hab => (fuel_mono_document fu).2.2.2.2.2.2.1 _ _ _ _ _ _ hab) hcosts),
        by simp [← h, hsum]⟩

theorem forall2_map_snd {α β γ : Type} {r : β → γ → Prop} {l : List (α × β)}
    {cs : List γ} (h : List.Forall₂ (fun p c => r (Prod.snd p) c) l cs) :
    List.Forall₂ r (l.map Prod.snd) cs := by
  induction h with
  | nil => exact .nil
  | cons hab hrest ih => exact .cons hab ih

/-- C3: a document's static estimate is the sum of the costs of its anonymous
operation (if any) and all named operations, in that order; an operation's cost is a
10.0 mutation surcharge (0.0 otherwise) plus its root selection set scored against
the schema's root type for the operation kind; a schema without that root type makes
the operation scoring fail. -/
theorem c3_document_sum (self : StaticCostCalculator) :
    (∀ fuel query schema ser v,
      estimated self (fuel + 1) query schema ser = .ok v →
      ∃ costs : List Cost,
        List.Forall₂ (fun op c => score_operation self fuel op schema query ser = .ok c)
          (document_operations query) costs ∧ v = costs.sum) ∧
    (∀ fuel operation schema executable ser,
      (schema : Schema).root_operation (operation : Operation).operation_type = none →
      score_operation self (fuel + 1) operation schema executable ser =
        .error (.queryParseFailure "schema does not support this root type")) ∧
    (∀ fuel operation schema executable ser root_type_name,
      (schema : Schema).root_operation (operation : Operation).operation_type =
        some root_type_name →
      score_operation self (fuel + 1) operation schema executable ser =
        score_selection_set self fuel operation.selection_set root_type_name schema
            executable ser none >>= fun s =>
          pure ((if operation.is_mutation then (10 : Cost) else 0) + s)) := by
  refine ⟨?_, ?_, ?_⟩
  · intro fuel query schema ser v h
    rw [estimated] at h
    cases hanon : query.anonymous with
    | some op =>
      rw [hanon] at h
      obtain ⟨a, ha, h⟩ := result_bind_eq_ok h
      obtain ⟨n, hn, h⟩ := result_bind_eq_ok h
      simp only [result_pure, Result.ok.injEq] at h
      obtain ⟨costs, hcosts, hsum⟩ := estimated_named_sum _ _ _ hn
      refine ⟨a :: costs, ?_, by simp [← h, hsum]⟩
      rw [document_operations, hanon]
      exact List.Forall₂.cons ha (forall2_map_snd (r := fun op c => score_operation self fuel op schema query ser = .ok c) hcosts)
    | none =>
      rw [hanon] at h
      obtain ⟨a, ha, h⟩ := result_bind_eq_ok h
      obtain ⟨n, hn, h⟩ := result_bind_eq_ok h
      simp only [result_pure, Result.ok.injEq] at ha h
      obtain ⟨costs, hcosts, hsum⟩ := estimated_named_sum _ _ _ hn
      refine ⟨costs, ?_, by rw [← h, ← ha, hsum]; simp⟩
      rw [document_operations, hanon]
      simpa using forall2_map_snd (r := fun op c => score_operation self fuel op schema query ser = .ok c) hcosts
  · intro fuel operation schema executable ser hroot
    simp only [score_operation, hroot]
  · intro fuel operation schema executable ser root_type_name hroot
    simp only [score_operation, hroot]

theorem field_requirements_cost_false {self : StaticCostCalculator} {fuel : Nat}
    {field : Field} {parent_type : String} {schema : Schema}
    {executable : ExecutableDocument} {lsd : Option ListSizeDirective} {v : Cost}
    (h : field_requirements_cost self fuel field parent_type schema executable false lsd =
      .ok v) : v = 0 := by
  cases fuel with
  | zero => exact absurd h (by rw [field_requirements_cost]; simp)
  | succ fu =>
    rw [field_requirements_cost] at h
    simp only [Bool.false_eq_true, if_false, Result.ok.injEq] at h
    exact h.symm

theorem requires_monotone : ∀ fuel : Nat,
    (∀ self field parent_type schema executable up b a, SchemaNonneg schema →
      DefaultListSizeFits self →
      NonnegOptSize up →
      score_field self fuel field parent_type schema executable false up = .ok b →
      score_field self fuel field parent_type schema executable true up = .ok a →
      b ≤ a) ∧
    (∀ self fragment_name parent_type schema executable lsd b a, SchemaNonneg schema →
      DefaultListSizeFits self →
      NonnegOptDir lsd →
      score_fragment_spread self fuel fragment_name parent_type schema executable false lsd =
        .ok b →
      score_fragment_spread self fuel fragment_name parent_type schema executable true lsd =
        .ok a → b ≤ a) ∧
    (∀ self selection_set parent_type schema executable lsd b a, SchemaNonneg schema →
      DefaultListSizeFits self →
      NonnegOptDir lsd →
      score_inline_fragment self fuel selection_set parent_type schema executable false lsd =
        .ok b →
      score_inline_fragment self fuel selection_set parent_type schema executable true lsd =
        .ok a → b ≤ a) ∧
    (∀ self selection parent_type schema executable lsd b a, SchemaNonneg schema →
      DefaultListSizeFits self →
      NonnegOptDir lsd →
      score_selection self fuel selection parent_type schema executable false lsd = .ok b →
      score_selection self fuel selection parent_type schema executable true lsd = .ok a →
      b ≤ a) ∧
    (∀ self selection_set parent_type schema executable lsd b a, SchemaNonneg schema →
      DefaultListSizeFits self →
      NonnegOptDir lsd →
      score_selection_set self fuel selection_set parent_type schema executable false lsd =
        .ok b →
      score_selection_set self fuel selection_set parent_type schema executable true lsd =
        .ok a → b ≤ a) ∧
    (∀ self operation schema executable b a, SchemaNonneg schema →
      DefaultListSizeFits self →
      score_operation self fuel operation schema executable false = .ok b →
      score_operation self fuel operation schema executable true = .ok a → b ≤ a) ∧
    (∀ self operations schema query b a, SchemaNonneg schema →
      DefaultListSizeFits self →
      estimated_named self fuel operations schema query false = .ok b →
      estimated_named self fuel operations schema query true = .ok a → b ≤ a) ∧
    (∀ self query schema b a, SchemaNonneg schema →
      DefaultListSizeFits self →
      estimated self fuel query schema false = .ok b →
      estimated self fuel query schema true = .ok a → b ≤ a) := by
  intro fuel
  induction fuel with
  | zero =>
    refine ⟨?_, ?_, ?_, ?_, ?_, ?_, ?_, ?_⟩
    · intro _ _ _ _ _ _ _ _ _ _ _ hb _
      exact absurd hb (by rw [score_field]; simp)
    · intro _ _ _ _ _ _ _ _ _ _ _ hb _
      exact absurd hb (by rw [score_fragment_spread]; simp)
    · intro _ _ _ _ _ _ _ _ _ _ _ hb _
      exact absurd hb (by rw [score_inline_fragment]; simp)
    · intro _ _ _ _ _ _ _ _ _ _ _ hb _
      exact absurd hb (by rw [score_selection]; simp)
    · intro _ _ _ _ _ _ _ _ _ _ _ hb _
      exact absurd hb (by rw [score_selection_set]; simp)
    · intro _ _ _ _ _ _ _ _ hb _
      exact absurd hb (by rw [score_operation]; simp)
    · intro _ _ _ _ _ _ _ _ hb _
      exact absurd hb (by rw [estimated_named]; simp)
    · intro _ _ _ _ _ _ _ hb _
      exact absurd hb (by rw [estimated]; simp)
  | succ fu ih =>
    obtain ⟨ih_field, ih_frag, ih_inline, ih_sel, ih_sss, ih_op, ih_named, ih_est⟩ := ih
    refine ⟨?_, ?_, ?_, ?_, ?_, ?_, ?_, ?_⟩
    · intro self field parent_type schema executable up b a hs hfit hup hb ha
      by_cases hsk : skipped_by_directives field
      · rw [score_field_skipped hsk] at hb ha
        simp only [Result.ok.injEq] at hb ha
        rw [← hb, ← ha]
      · have hskf : skipped_by_directives field = false := by
          simpa using hsk
        obtain ⟨d1, t1, l1, s1, a1, r1, hdef1, hty1, hlsd1, hsel1, hargs1, hreq1, hv1⟩ :=
          score_field_ok_elim hskf hb
        obtain ⟨d2, t2, l2, s2, a2, r2, hdef2, hty2, hlsd2, hsel2, hargs2, hreq2, hv2⟩ :=
          score_field_ok_elim hskf ha
        rw [hdef1] at hdef2
        rw [hty1] at hty2
        rw [hlsd1] at hlsd2
        simp only [Option.some.injEq, Result.ok.injEq] at hdef2 hty2 hlsd2
        rw [← hdef2] at hargs2
        rw [← hty2] at hv2
        rw [← hlsd2] at hsel2 hreq2 hv2
        rw [hargs1] at hargs2
        simp only [Result.ok.injEq] at hargs2
        have hdir : NonnegOptDir l1 := resolved_list_size_directive_nonneg hs hlsd1
        have hsle : s1 ≤ s2 := ih_sss _ _ _ _ _ _ _ _ hs hfit hdir hsel1 hsel2
        have hr1 : r1 = 0 := field_requirements_cost_false hreq1
        have hr2 : 0 ≤ r2 := (nonneg_document fu).2.1 _ _ _ _ _ _ _ _ hs hfit hdir hreq2
        have hic : (0 : Cost) ≤ ((claimed_instance_count self field up
            (l1.bind (fun dir => dir.expected_size)) : Int) : Cost) := by
          exact_mod_cast claimed_instance_count_nonneg hfit hup (expected_size_nonneg hdir)
        rw [hv1, hv2, hr1, ← hargs2]
        have hmul : ((claimed_instance_count self field up
              (l1.bind (fun dir => dir.expected_size)) : Int) : Cost)
              * (claimed_type_cost_base schema parent_type field t1 + s1) ≤
            ((claimed_instance_count self field up
              (l1.bind (fun dir => dir.expected_size)) : Int) : Cost)
              * (claimed_type_cost_base schema parent_type field t1 + s2) :=
          mul_le_mul_of_nonneg_left (add_le_add_left hsle _) hic
        linarith
    · intro self fragment_name parent_type schema executable lsd b a hs hfit hdir hb ha
      rw [score_fragment_spread] at hb ha
      cases hfrag : executable.fragments fragment_name with
      | none =>
        rw [hfrag] at hb
        simp at hb
      | some fragment =>
        rw [hfrag] at hb ha
        exact ih_sss _ _ _ _ _ _ _ _ hs hfit hdir hb ha
    · intro self selection_set parent_type schema executable lsd b a hs hfit hdir hb ha
      rw [score_inline_fragment] at hb ha
      exact ih_sss _ _ _ _ _ _ _ _ hs hfit hdir hb ha
    · intro self selection parent_type schema executable lsd b a hs hfit hdir hb ha
      rw [score_selection_succ] at hb ha
      cases selection with
      | field f => exact ih_field _ _ _ _ _ _ _ _ hs hfit (size_of_nonneg hdir) hb ha
      | fragmentSpread s => exact ih_frag _ _ _ _ _ _ _ _ hs hfit hdir hb ha
      | inlineFragment type_condition selection_set =>
        exact ih_inline _ _ _ _ _ _ _ _ hs hfit hdir hb ha
    · intro self selection_set parent_type schema executable lsd b a hs hfit hdir hb ha
      rw [score_selection_set_succ] at hb ha
      cases selection_set with
      | nil =>
        simp only [Result.ok.injEq] at hb ha
        rw [← hb, ← ha]
      | cons selection rest =>
        obtain ⟨c1, hc1, hb⟩ := result_bind_eq_ok hb
        obtain ⟨r1, hr1, hb⟩ := result_bind_eq_ok hb
        obtain ⟨c2, hc2, ha⟩ := result_bind_eq_ok ha
        obtain ⟨r2, hr2, ha⟩ := result_bind_eq_ok ha
        simp only [result_pure, Result.ok.injEq] at hb ha
        have h1 := ih_sel _ _ _ _ _ _ _ _ hs hfit hdir hc1 hc2
        have h2 := ih_sss _ _ _ _ _ _ _ _ hs hfit hdir hr1 hr2
        rw [← hb, ← ha]
        exact add_le_add h1 h2
    · intro self operation schema executable b a hs hfit hb ha
      rw [score_operation] at hb ha
      cases hroot : schema.root_operation operation.operation_type with
      | none =>
        rw [hroot] at hb
        simp at hb
      | some root_type_name =>
        rw [hroot] at hb ha
        obtain ⟨s1, hs1, hb⟩ := result_bind_eq_ok hb
        obtain ⟨s2, hs2, ha⟩ := result_bind_eq_ok ha
        simp only [result_pure, Result.ok.injEq] at hb ha
        have h1 := ih_sss _ _ _ _ _ _ _ _ hs hfit (by intro dir hdir; simp at hdir) hs1 hs2
        rw [← hb, ← ha]
        exact add_le_add_left h1 _
    · intro self operations schema query b a hs hfit hb ha
      rw [estimated_named_succ] at hb ha
      cases operations with
      | nil =>
        simp only [Result.ok.injEq] at hb ha
        rw [← hb, ← ha]
      | cons p rest =>
        obtain ⟨c1, hc1, hb⟩ := result_bind_eq_ok hb
        obtain ⟨r1, hr1, hb⟩ := result_bind_eq_ok hb
        obtain ⟨c2, hc2, ha⟩ := result_bind_eq_ok ha
        obtain ⟨r2, hr2, ha⟩ := result_bind_eq_ok ha
        simp only [result_pure, Result.ok.injEq] at hb ha
        have h1 := ih_op _ _ _ _ _ _ hs hfit hc1 hc2
        have h2 := ih_named _ _ _ _ _ _ hs hfit hr1 hr2
        rw [← hb, ← ha]
        exact add_le_add h1 h2
    · intro self query schema b a hs hfit hb ha
      rw [estimated] at hb ha
      cases hanon : query.anonymous with
      | some op =>
        rw [hanon] at hb ha
        obtain ⟨c1, hc1, hb⟩ := result_bind_eq_ok hb
        obtain ⟨r1, hr1, hb⟩ := result_bind_eq_ok hb
        obtain ⟨c2, hc2, ha⟩ := result_bind_eq_ok ha
        obtain ⟨r2, hr2, ha⟩ := result_bind_eq_ok ha
        simp only [result_pure, Result.ok.injEq] at hb ha
        have h1 := ih_op _ _ _ _ _ _ hs hfit hc1 hc2
        have h2 := ih_named _ _ _ _ _ _ hs hfit hr1 hr2
        rw [← hb, ← ha]
        exact add_le_add h1 h2
      | none =>
        rw [hanon] at hb ha
        obtain ⟨c1, hc1, hb⟩ := result_bind_eq_ok hb
        obtain ⟨r1, hr1, hb⟩ := result_bind_eq_ok hb
        obtain ⟨c2, hc2, ha⟩ := result_bind_eq_ok ha
        obtain ⟨r2, hr2, ha⟩ := result_bind_eq_ok ha
        simp only [result_pure, Result.ok.injEq] at hb ha hc1 hc2
        have h2 := ih_named _ _ _ _ _ _ hs hfit hr1 hr2
        rw [← hb, ← ha, ← hc1, ← hc2]
        simpa using h2


theorem c3_document_sum_witness :
    (∃ costs : List Cost,
      List.Forall₂ (fun op c => score_operation calc_plain 5 op schema_plain doc_a true = .ok c)
        (document_operations doc_a) costs ∧ (0 : Cost) = costs.sum) ∧
    score_operation calc_plain 6 ⟨.mutation, "Query", []⟩ schema_plain doc_a true =
      .error (.queryParseFailure "schema does not support this root type") ∧
    score_operation calc_plain 6 ⟨.query, "Query", [.field field_a]⟩ schema_plain doc_a true =
      (score_selection_set calc_plain 5 [.field field_a] "Query" schema_plain doc_a true none
        >>= fun s =>
        pure ((if Operation.is_mutation ⟨.query, "Query", [.field field_a]⟩ then (10 : Cost)
          else 0) + s)) := by
  have heval : estimated calc_plain 6 doc_a schema_plain true = .ok 0 := by
    simp [estimated, estimated_named, score_operation, score_selection_set, score_selection,
      score_field, field_arguments_cost, field_requirements_cost, resolved_list_size_directive,
      skipped_by_directives, include_directive_from_field, skip_directive_from_field,
      schema_plain, calc_plain, doc_a, field_a, Field.name, Field.ty, Field.arguments,
      Field.directives, Field.selection_set, GqlType.inner_named_type, GqlType.is_list,
      Operation.is_mutation, ExtendedType.is_interface, ExtendedType.is_object,
      ExtendedType.is_union]
  exact ⟨(c3_document_sum calc_plain).1 5 doc_a schema_plain true 0 heval,
    (c3_document_sum calc_plain).2.1 5 ⟨.mutation, "Query", []⟩ schema_plain doc_a true
      (by simp [schema_plain]),
    (c3_document_sum calc_plain).2.2 5 ⟨.query, "Query", [.field field_a]⟩ schema_plain doc_a
      true "Query" (by simp [schema_plain])⟩

/-- C5 (amended): for every document and schema on which both runs succeed at the
same fuel, the static estimate with requirement estimation enabled is at least the
estimate with it disabled, provided every Cost directive weight and every resolved
ListSize size of the schema is non-negative and the configured default list size is
below 2^31.  (The unamended claim fails: a Requires selection containing a negative
Cost weight makes the enabled estimate smaller -- see the counterexample -- and the
fallback instance count is the wrapping i32 cast of the u32 default, negative for
defaults at or above 2^31, which also breaks the monotonicity.) -/
theorem c5_requires_estimate_monotone (self : StaticCostCalculator) (fuel : Nat)
    (query : ExecutableDocument) (schema : Schema) (disabled enabled : Cost)
    (hs : SchemaNonneg schema) (hfit : DefaultListSizeFits self)
    (hdis : estimated self fuel query schema false = .ok disabled)
    (hen : estimated self fuel query schema true = .ok enabled) :
    disabled ≤ enabled :=
  (requires_monotone fuel).2.2.2.2.2.2.2 self query schema disabled enabled hs hfit hdis hen

/-- Counterexample to C5 as stated: with a Requires directive on the field a whose
required selection g carries Cost weight -5, enabling requirement estimation lowers
the estimate from 0 to -5. -/
theorem c5_counterexample :
    estimated calc_requires_neg 10 doc_a schema_requires_neg false = .ok 0 ∧
    estimated calc_requires_neg 10 doc_a schema_requires_neg true = .ok (-5) ∧
    ¬ ((0 : Cost) ≤ -5) := by
  refine ⟨?_, ?_, by norm_num⟩
  · simp [estimated, estimated_named, score_operation, score_selection_set, score_selection,
      score_field, field_arguments_cost, field_requirements_cost, resolved_list_size_directive,
      skipped_by_directives, include_directive_from_field, skip_directive_from_field,
      schema_requires_neg, calc_requires_neg, doc_a, field_a, Field.name, Field.ty,
      Field.arguments, Field.directives, Field.selection_set, GqlType.inner_named_type,
      GqlType.is_list, Operation.is_mutation, ExtendedType.is_interface,
      ExtendedType.is_object, ExtendedType.is_union]
  · simp [estimated, estimated_named, score_operation, score_selection_set, score_selection,
      score_field, field_arguments_cost, field_requirements_cost, resolved_list_size_directive,
      skipped_by_directives, include_directive_from_field, skip_directive_from_field,
      schema_requires_neg, calc_requires_neg, doc_a, field_a, Field.name, Field.ty,
      Field.arguments, Field.directives, Field.selection_set, GqlType.inner_named_type,
      GqlType.is_list, Operation.is_mutation, ExtendedType.is_interface,
      ExtendedType.is_object, ExtendedType.is_union]

/-- Witness for C5 (amended) on the plain schema: both runs succeed with cost 0. -/
theorem c5_requires_estimate_monotone_witness :
    SchemaNonneg schema_plain ∧ DefaultListSizeFits calc_plain ∧
    estimated calc_plain 10 doc_a schema_plain false = .ok 0 ∧
    estimated calc_plain 10 doc_a schema_plain true = .ok 0 ∧ (0 : Cost) ≤ 0 := by
  have hs : SchemaNonneg schema_plain := by
    refine ⟨?_, ?_, ?_, ?_⟩
    · intro pt f q hq
      simp [schema_plain] at hq
    · intro pt f fd hfd a ha q hq
      simp only [schema_plain] at hfd
      split at hfd
      · simp only [Option.some.injEq] at hfd
        rw [← hfd] at ha
        simp [no_arguments_definition] at ha
      · simp at hfd
    · intro t fs hfs p hp q hq
      simp only [schema_plain] at hfs
      split at hfs
      · simp at hfs
      · split at hfs
        · simp at hfs
        · simp at hfs
    · intro pt f dd hdd
      simp [schema_plain] at hdd
  have hfalse : estimated calc_plain 10 doc_a schema_plain false = .ok 0 := by
    simp [estimated, estimated_named, score_operation, score_selection_set, score_selection,
      score_field, field_arguments_cost, field_requirements_cost, resolved_list_size_directive,
      skipped_by_directives, include_directive_from_field, skip_directive_from_field,
      schema_plain, calc_plain, doc_a, field_a, Field.name, Field.ty, Field.arguments,
      Field.directives, Field.selection_set, GqlType.inner_named_type, GqlType.is_list,
      Operation.is_mutation, ExtendedType.is_interface, ExtendedType.is_object,
      ExtendedType.is_union]
  have htrue : estimated calc_plain 10 doc_a schema_plain true = .ok 0 := by
    simp [estimated, estimated_named, score_operation, score_selection_set, score_selection,
      score_field, field_arguments_cost, field_requirements_cost, resolved_list_size_directive,
      skipped_by_directives, include_directive_from_field, skip_directive_from_field,
      schema_plain, calc_plain, doc_a, field_a, Field.name, Field.ty, Field.arguments,
      Field.directives, Field.selection_set, GqlType.inner_named_type, GqlType.is_list,
      Operation.is_mutation, ExtendedType.is_interface, ExtendedType.is_object,
      ExtendedType.is_union]
  have hfit : DefaultListSizeFits calc_plain := by
    norm_num [DefaultListSizeFits, calc_plain]
  exact ⟨hs, hfit, hfalse, htrue,
    c5_requires_estimate_monotone calc_plain 10 doc_a schema_plain 0 0 hs hfit hfalse htrue⟩

theorem visit_field_arguments_no_definition (schema : Schema) :
    ∀ (fuel : Nat) (arguments : List (String × GqlValue)),
    visit_field_arguments fuel none arguments schema = 0 := by
  intro fuel
  induction fuel with
  | zero =>
    intro arguments
    rw [visit_field_arguments]
  | succ fu ih =>
    intro arguments
    rw [visit_field_arguments_succ]
    cases arguments with
    | nil => rfl
    | cons p rest => simp [ih rest]

/-- C10: the actual-cost entry point always succeeds (it returns the visitor's
accumulated cost for every document and response); an array value under a field is
visited once per element with the same field, so an array of N scalar leaves
contributes N times the field's per-item weight, matching the literal element count;
and a field whose definition cannot be resolved contributes only its value cost (its
arguments contribute zero) while the walk continues, as does an argument whose
definition cannot be resolved. -/
theorem c10_actual_total (self : StaticCostCalculator) (schema : Schema) :
    (∀ fuel request response,
      actual self fuel request response =
        .ok (visit self.supergraph_schema fuel request response)) ∧
    (∀ fu request parent_ty field items,
      visit_list_item schema (fu + 1) request parent_ty field (.array items) =
        visit_array_items schema fu request parent_ty field items) ∧
    (∀ request parent_ty field items fu,
      (∀ x ∈ items, JsonValue.is_scalar x = true) → items.length < fu →
      visit_array_items schema fu request parent_ty field items =
        (items.length : Cost) *
          ((schema.type_field_cost_directive parent_ty field.name).getD 0)) ∧
    (∀ fu request parent_ty field value,
      schema.type_field parent_ty field.name = none →
      visit_field schema (fu + 1) request parent_ty field value =
        visit_list_item schema fu request parent_ty field value) ∧
    (∀ fu fdef argument_name argument_value rest,
      FieldDefinition.argument_by_name fdef argument_name = none →
      visit_field_arguments (fu + 1) (some fdef)
          ((argument_name, argument_value) :: rest) schema =
        visit_field_arguments fu (some fdef) rest schema) := by
  refine ⟨?_, ?_, ?_, ?_, ?_⟩
  · intro fuel request response
    rw [actual]
  · intro fu request parent_ty field items
    rw [visit_list_item_succ]
  · intro request parent_ty field items
    induction items with
    | nil =>
      intro fu hscal hlen
      cases fu with
      | zero => simp at hlen
      | succ fu2 => simp only [visit_array_items_succ]; simp
    | cons item rest ih =>
      intro fu hscal hlen
      cases fu with
      | zero => simp at hlen
      | succ fu2 =>
        simp only [visit_array_items_succ]
        have hfu2 : rest.length < fu2 := by
          simp only [List.length_cons] at hlen
          omega
        have hitem : visit_list_item schema fu2 request parent_ty field item =
            (schema.type_field_cost_directive parent_ty field.name).getD 0 := by
          cases fu2 with
          | zero => omega
          | succ fu3 =>
            rw [visit_list_item_succ]
            have hsc : JsonValue.is_scalar item = true := hscal item (by simp)
            cases item <;> simp_all [JsonValue.is_scalar]
        have hrest : visit_array_items schema fu2 request parent_ty field rest =
            (rest.length : Cost) *
              ((schema.type_field_cost_directive parent_ty field.name).getD 0) :=
          ih fu2 (fun x hx => hscal x (by simp [hx])) hfu2
        rw [hitem, hrest]
        simp [List.length_cons]
        ring
  · intro fu request parent_ty field value hnone
    rw [visit_field, hnone, visit_field_arguments_no_definition]
    ring
  · intro fu fdef argument_name argument_value rest hnone
    simp only [visit_field_arguments_succ, hnone]
    simp

/-- Witness for C10: the actual cost of a three-element numeric array response under
a field with Cost weight -1 is exactly 3 times that weight, and unresolvable
definitions contribute zero without failing. -/
theorem c10_actual_total_witness :
    actual calc_neg 20 doc_a response_array_3 =
      .ok (visit calc_neg.supergraph_schema 20 doc_a response_array_3) ∧
    actual calc_neg 20 doc_a response_array_3 = .ok (-3) ∧
    (∀ x ∈ [JsonValue.number 1, .number 2, .number 3], JsonValue.is_scalar x = true) ∧
    ([JsonValue.number 1, .number 2, .number 3].length < 5) ∧
    visit_array_items schema_neg 5 doc_a "Query" field_a
        [.number 1, .number 2, .number 3] =
      (([JsonValue.number 1, .number 2, .number 3].length : Cost)) *
        ((schema_neg.type_field_cost_directive "Query" field_a.name).getD 0) ∧
    schema_plain.type_field "Query" "zz" = none ∧
    visit_field schema_plain (7 + 1) doc_a "Query" (.mk "zz" [] (.named "Int") [] []) .null =
      visit_list_item schema_plain 7 doc_a "Query" (.mk "zz" [] (.named "Int") [] []) .null := by
  have hscal : ∀ x ∈ [JsonValue.number 1, .number 2, .number 3],
      JsonValue.is_scalar x = true := by
    intro x hx
    fin_cases hx <;> rfl
  have hlen : [JsonValue.number 1, .number 2, .number 3].length < 5 := by
    norm_num
  have hnone : schema_plain.type_field "Query" "zz" = none := by
    simp [schema_plain]
  have heval : actual calc_neg 20 doc_a response_array_3 = .ok (-3) := by
    simp [actual, visit, visit_named_operations, visit_selections_succ, visit_field,
      visit_list_item_succ, visit_array_items_succ, visit_field_arguments,
      calc_neg, schema_neg, doc_a, field_a, response_array_3, Field.name, Field.ty,
      Field.arguments, Field.selection_set, GqlType.inner_named_type]
    norm_num
  exact ⟨(c10_actual_total calc_neg schema_neg).1 20 doc_a response_array_3, heval, hscal, hlen,
    (c10_actual_total calc_neg schema_neg).2.2.1 doc_a "Query" field_a
      [.number 1, .number 2, .number 3] 5 hscal hlen,
    hnone,
    (c10_actual_total calc_neg schema_plain).2.2.2.1 7 doc_a "Query"
      (.mk "zz" [] (.named "Int") [] []) .null hnone⟩

theorem result_bind_congr {α β : Type} {x : Result α} {f g : α → Result β}
    (h : ∀ a, f a = g a) : (x >>= f) = (x >>= g) := by
  cases x with
  | ok a => simpa using h a
  | error e => rfl

theorem score_argument_leaf {fu : Nat} {v : GqlValue} {d : InputValueDefinition}
    {schema : Schema} (hleaf : v.is_leaf = true) (hcd : d.cost_directive = none) :
    score_argument (fu + 1) v d schema = score_argument_leaf_result d schema := by
  rw [score_argument]
  rw [score_argument_leaf_result.eq_def]
  cases hty : schema.types d.ty.inner_named_type with
  | none => cases v <;> simp_all [GqlValue.is_leaf]
  | some ty => cases ty <;> cases v <;> simp_all [GqlValue.is_leaf]

theorem shape_equal_arguments : ∀ fuel : Nat,
    (∀ v1 v2 d schema, SchemaNoCostDirectives schema → SameShape v1 v2 →
      d.cost_directive = none →
      score_argument fuel v1 d schema = score_argument fuel v2 d schema) ∧
    (∀ args1 args2 defs schema cost, SchemaNoCostDirectives schema →
      SameShapeFields args1 args2 →
      (∀ p ∈ defs, (p : String × InputValueDefinition).2.cost_directive = none) →
      score_argument_fields fuel args1 defs schema cost =
        score_argument_fields fuel args2 defs schema cost) ∧
    (∀ l1 l2 d schema cost, SchemaNoCostDirectives schema → SameShapeList l1 l2 →
      d.cost_directive = none →
      score_argument_list fuel l1 d schema cost =
        score_argument_list fuel l2 d schema cost) ∧
    (∀ args1 args2 definition schema, SchemaNoCostDirectives schema →
      ArgsRel SameShape args1 args2 →
      (∀ a ∈ (definition : FieldDefinition).arguments, a.cost_directive = none) →
      field_arguments_cost fuel args1 definition schema =
        field_arguments_cost fuel args2 definition schema) := by
  intro fuel
  induction fuel with
  | zero =>
    refine ⟨?_, ?_, ?_, ?_⟩
    · intro _ _ _ _ _ _ _
      rw [score_argument, score_argument]
    · intro _ _ _ _ _ _ _ _
      rw [score_argument_fields, score_argument_fields]
    · intro _ _ _ _ _ _ _ _
      rw [score_argument_list, score_argument_list]
    · intro _ _ _ _ _ _ _
      rw [field_arguments_cost, field_arguments_cost]
  | succ fu ih =>
    obtain ⟨ih_arg, ih_fields, ih_list, ih_fac⟩ := ih
    refine ⟨?_, ?_, ?_, ?_⟩
    · intro v1 v2 d schema hnc hrel hcd
      cases hrel with
      | leaf v w hv hw =>
        rw [score_argument_leaf hv hcd, score_argument_leaf hw hcd]
      | list xs ys hxs =>
        rw [score_argument, score_argument]
        cases hty : schema.types d.ty.inner_named_type with
        | none => rfl
        | some ty =>
          cases ty <;> simp only [] <;>
            first
            | rfl
            | exact ih_list _ _ _ _ _ hnc hxs hcd
      | object xs ys hxs =>
        rw [score_argument, score_argument]
        cases hty : schema.types d.ty.inner_named_type with
        | none => rfl
        | some ty =>
          cases hty2 : ty with
          | inputObject defs =>
            have hdefs : ∀ p ∈ defs, (p : String × InputValueDefinition).2.cost_directive = none := by
              intro p hp
              exact hnc.input_object_cost _ _ (hty2 ▸ hty) p hp
            exact ih_fields _ _ _ _ _ hnc hxs hdefs
          | scalar => rfl
          | object => rfl
          | interface => rfl
          | union => rfl
          | enum => rfl
    · intro args1 args2 defs schema cost hnc hrel hdefs
      cases hrel with
      | nil => rfl
      | cons n x y xs ys hxy hrest =>
        rw [score_argument_fields_succ, score_argument_fields_succ]
        cases hlook : defs.lookup n with
        | none => simp [hlook]
        | some arg_def =>
          have hmem : (n, arg_def) ∈ defs := mem_of_lookup_eq_some hlook
          have hcd : arg_def.cost_directive = none := hdefs _ hmem
          simp only [hlook]
          rw [ih_arg _ _ _ _ hnc hxy hcd]
          exact result_bind_congr (fun c => ih_fields _ _ _ _ _ hnc hrest hdefs)
    · intro l1 l2 d schema cost hnc hrel hcd
      cases hrel with
      | nil => rfl
      | cons x y xs ys hxy hrest =>
        rw [score_argument_list_succ, score_argument_list_succ]
        show (score_argument fu x d schema >>= fun c =>
            score_argument_list fu xs d schema (cost + c)) =
          (score_argument fu y d schema >>= fun c =>
            score_argument_list fu ys d schema (cost + c))
        rw [ih_arg _ _ _ _ hnc hxy hcd]
        exact result_bind_congr (fun c => ih_list _ _ _ _ _ hnc hrest hcd)
    · intro args1 args2 definition schema hnc hrel hdefs
      cases hrel with
      | nil => rfl
      | cons n v w vs ws hvw hrest =>
        rw [field_arguments_cost_succ, field_arguments_cost_succ]
        cases hlook : definition.argument_by_name n with
        | none => simp [hlook]
        | some argument_definition =>
          have hcd : argument_definition.cost_directive = none :=
            hdefs _ (mem_of_argument_by_name hlook)
          simp only [hlook]
          rw [ih_arg _ _ _ _ hnc hvw hcd]
          exact result_bind_congr (fun c => by rw [ih_fac _ _ _ _ hnc hrest hdefs])

theorem resolved_list_size_directive_nocost {schema : Schema} {parent_type : String}
    {f : Field} (hnc : SchemaNoCostDirectives schema) :
    resolved_list_size_directive schema parent_type f = .ok none := by
  rw [resolved_list_size_directive, hnc.list_size]

theorem shape_equal_document : ∀ fuel : Nat,
    (∀ self f1 f2 parent_type schema ex1 ex2 ser up, SchemaNoCostDirectives schema →
      DocumentRel SameShape ex1 ex2 → FieldRel SameShape f1 f2 →
      score_field self fuel f1 parent_type schema ex1 ser up =
        score_field self fuel f2 parent_type schema ex2 ser up) ∧
    (∀ self fragment_name parent_type schema ex1 ex2 ser lsd, SchemaNoCostDirectives schema →
      DocumentRel SameShape ex1 ex2 →
      score_fragment_spread self fuel fragment_name parent_type schema ex1 ser lsd =
        score_fragment_spread self fuel fragment_name parent_type schema ex2 ser lsd) ∧
    (∀ self s1 s2 parent_type schema ex1 ex2 ser lsd, SchemaNoCostDirectives schema →
      DocumentRel SameShape ex1 ex2 → SelsRel SameShape s1 s2 →
      score_inline_fragment self fuel s1 parent_type schema ex1 ser lsd =
        score_inline_fragment self fuel s2 parent_type schema ex2 ser lsd) ∧
    (∀ self s1 s2 parent_type schema ex1 ex2 ser lsd, SchemaNoCostDirectives schema →
      DocumentRel SameShape ex1 ex2 → SelRel SameShape s1 s2 →
      score_selection self fuel s1 parent_type schema ex1 ser lsd =
        score_selection self fuel s2 parent_type schema ex2 ser lsd) ∧
    (∀ self s1 s2 parent_type schema ex1 ex2 ser lsd, SchemaNoCostDirectives schema →
      DocumentRel SameShape ex1 ex2 → SelsRel SameShape s1 s2 →
      score_selection_set self fuel s1 parent_type schema ex1 ser lsd =
        score_selection_set self fuel s2 parent_type schema ex2 ser lsd) ∧
    (∀ self op1 op2 schema ex1 ex2 ser, SchemaNoCostDirectives schema →
      DocumentRel SameShape ex1 ex2 → OperationRel SameShape op1 op2 →
      score_operation self fuel op1 schema ex1 ser =
        score_operation self fuel op2 schema ex2 ser) ∧
    (∀ self ops1 ops2 schema ex1 ex2 ser, SchemaNoCostDirectives schema →
      DocumentRel SameShape ex1 ex2 →
      List.Forall₂ (fun p q => Prod.fst p = Prod.fst q ∧
        OperationRel SameShape (Prod.snd p) (Prod.snd q)) ops1 ops2 →
      estimated_named self fuel ops1 schema ex1 ser =
        estimated_named self fuel ops2 schema ex2 ser) ∧
    (∀ self q1 q2 schema ser, SchemaNoCostDirectives schema →
      DocumentRel SameShape q1 q2 →
      estimated self fuel q1 schema ser = estimated self fuel q2 schema ser) := by
  intro fuel
  induction fuel with
  | zero =>
    refine ⟨?_, ?_, ?_, ?_, ?_, ?_, ?_, ?_⟩
    · intro _ _ _ _ _ _ _ _ _ _ _ _
      rw [score_field, score_field]
    · intro _ _ _ _ _ _ _ _ _ _
      rw [score_fragment_spread, score_fragment_spread]
    · intro _ _ _ _ _ _ _ _ _ _ _ _
      rw [score_inline_fragment, score_inline_fragment]
    · intro _ _ _ _ _ _ _ _ _ _ _ _
      rw [score_selection, score_selection]
    · intro _ _ _ _ _ _ _ _ _ _ _ _
      rw [score_selection_set, score_selection_set]
    · intro _ _ _ _ _ _ _ _ _ _
      rw [score_operation, score_operation]
    · intro _ _ _ _ _ _ _ _ _ _
      rw [estimated_named, estimated_named]
    · intro _ _ _ _ _ _ _
      rw [estimated, estimated]
  | succ fu ih =>
    obtain ⟨ih_field, ih_frag, ih_inline, ih_sel, ih_sss, ih_op, ih_named, ih_est⟩ := ih
    refine ⟨?_, ?_, ?_, ?_, ?_, ?_, ?_, ?_⟩
    · intro self f1 f2 parent_type schema ex1 ex2 ser up hnc hdoc hrel
      cases hrel with
      | mk name ty directives args1 args2 sels1 sels2 hargs hsels =>
        have hskip2 : skipped_by_directives (Field.mk name args2 ty directives sels2) =
            skipped_by_directives (Field.mk name args1 ty directives sels1) := rfl
        by_cases hsk : skipped_by_directives (Field.mk name args1 ty directives sels1) = true
        · rw [score_field_skipped hsk, score_field_skipped (hskip2.trans hsk)]
        · have hskf : skipped_by_directives (Field.mk name args1 ty directives sels1) = false := by
            simpa using hsk
          have hskf2 : skipped_by_directives (Field.mk name args2 ty directives sels2) = false :=
            hskip2.trans hskf
          have hreq : field_requirements_cost self fu (Field.mk name args1 ty directives sels1)
              parent_type schema ex1 ser none =
              field_requirements_cost self fu (Field.mk name args2 ty directives sels2)
                parent_type schema ex2 ser none := by
            cases fu with
            | zero => rw [field_requirements_cost, field_requirements_cost]
            | succ fu2 =>
              rw [field_requirements_cost, field_requirements_cost]
              simp [Field.name, hnc.requires]
          rw [score_field, score_field]
          simp only [hskf, hskf2, Bool.false_eq_true, if_false, Field.name, Field.ty,
            Field.arguments, Field.selection_set]
          cases hdef : schema.type_field parent_type name with
          | none => simp [hdef]
          | some definition =>
            simp only [hdef]
            cases hty : schema.types ty.inner_named_type with
            | none => rfl
            | some tydef =>
              simp only [hty, resolved_list_size_directive_nocost hnc]
              rw [ih_sss _ _ _ _ _ _ _ _ _ hnc hdoc hsels]
              rw [(shape_equal_arguments fu).2.2.2 args1 args2 definition schema hnc hargs
                (hnc.argument_cost _ _ _ hdef)]
              rw [hreq]
    · intro self fragment_name parent_type schema ex1 ex2 ser lsd hnc hdoc
      rw [score_fragment_spread, score_fragment_spread]
      have hfragrel := hdoc.fragments fragment_name
      cases h1 : ex1.fragments fragment_name with
      | none =>
        cases h2 : ex2.fragments fragment_name with
        | none => rfl
        | some frag2 =>
          rw [h1, h2] at hfragrel
          exact hfragrel.elim
      | some frag1 =>
        cases h2 : ex2.fragments fragment_name with
        | none =>
          rw [h1, h2] at hfragrel
          exact hfragrel.elim
        | some frag2 =>
          rw [h1, h2] at hfragrel
          simp only [h1, h2]
          exact ih_sss _ _ _ _ _ _ _ _ _ hnc hdoc hfragrel.2
    · intro self s1 s2 parent_type schema ex1 ex2 ser lsd hnc hdoc hrel
      rw [score_inline_fragment, score_inline_fragment]
      exact ih_sss _ _ _ _ _ _ _ _ _ hnc hdoc hrel
    · intro self s1 s2 parent_type schema ex1 ex2 ser lsd hnc hdoc hrel
      cases hrel with
      | field f g hfg =>
        have hname : Field.name g = Field.name f := by
          cases hfg with
          | mk name ty directives args1 args2 sels1 sels2 hargs hsels => rfl
        have hsize : (lsd.bind (fun dir => dir.size_of g)) =
            (lsd.bind (fun dir => dir.size_of f)) := by
          cases lsd with
          | none => rfl
          | some dir =>
            simp only [Option.some_bind, ListSizeDirective.size_of, hname]
        show score_field self fu f parent_type schema ex1 ser
            (lsd.bind (fun dir => dir.size_of f)) =
          score_field self fu g parent_type schema ex2 ser
            (lsd.bind (fun dir => dir.size_of g))
        rw [hsize]
        exact ih_field _ _ _ _ _ _ _ _ _ hnc hdoc hfg
      | fragmentSpread n =>
        simp only [score_selection_succ]
        exact ih_frag _ _ _ _ _ _ _ _ hnc hdoc
      | inlineFragment c s t hst =>
        simp only [score_selection_succ]
        exact ih_inline _ _ _ _ _ _ _ _ _ hnc hdoc hst
    · intro self s1 s2 parent_type schema ex1 ex2 ser lsd hnc hdoc hrel
      cases hrel with
      | nil => rfl
      | cons s t ss ts hst hrest =>
        rw [score_selection_set_succ, score_selection_set_succ]
        show (score_selection self fu s parent_type schema ex1 ser lsd >>= fun c =>
            score_selection_set self fu ss parent_type schema ex1 ser lsd >>= fun crest =>
            pure (c + crest)) =
          (score_selection self fu t parent_type schema ex2 ser lsd >>= fun c =>
            score_selection_set self fu ts parent_type schema ex2 ser lsd >>= fun crest =>
            pure (c + crest))
        rw [ih_sel _ _ _ _ _ _ _ _ _ hnc hdoc hst]
        exact result_bind_congr (fun c => by
          rw [ih_sss _ _ _ _ _ _ _ _ _ hnc hdoc hrest])
    · intro self op1 op2 schema ex1 ex2 ser hnc hdoc hrel
      obtain ⟨htype, hssty, hsels⟩ := hrel
      rw [score_operation, score_operation, ← htype]
      have hmut : Operation.is_mutation op2 = Operation.is_mutation op1 := by
        rw [Operation.is_mutation, Operation.is_mutation, ← htype]
      rw [hmut]
      cases hroot : schema.root_operation op1.operation_type with
      | none => rfl
      | some root_type_name =>
        simp only [hroot]
        rw [ih_sss _ _ _ _ _ _ _ _ _ hnc hdoc hsels]
    · intro self ops1 ops2 schema ex1 ex2 ser hnc hdoc hrel
      cases hrel with
      | nil => rfl
      | cons hpq hrest =>
        rw [estimated_named_succ, estimated_named_succ]
        rename_i p q ps qs
        show (score_operation self fu p.2 schema ex1 ser >>= fun c =>
            estimated_named self fu ps schema ex1 ser >>= fun crest =>
            pure (c + crest)) =
          (score_operation self fu q.2 schema ex2 ser >>= fun c =>
            estimated_named self fu qs schema ex2 ser >>= fun crest =>
            pure (c + crest))
        rw [ih_op _ _ _ _ _ _ _ hnc hdoc hpq.2]
        exact result_bind_congr (fun c => by
          rw [ih_named _ _ _ _ _ _ _ hnc hdoc hrest])
    · intro self q1 q2 schema ser hnc hdoc
      rw [estimated, estimated]
      have hanonrel := hdoc.anonymous
      cases h1 : q1.anonymous with
      | none =>
        cases h2 : q2.anonymous with
        | none =>
          show ((pure 0 : Result Cost) >>= fun a =>
              estimated_named self fu q1.named schema q1 ser >>= fun n =>
              pure (a + n)) =
            ((pure 0 : Result Cost) >>= fun a =>
              estimated_named self fu q2.named schema q2 ser >>= fun n =>
              pure (a + n))
          rw [ih_named _ _ _ _ _ _ _ hnc hdoc hdoc.named]
        | some op2 =>
          rw [h1, h2] at hanonrel
          exact hanonrel.elim
      | some op1 =>
        cases h2 : q2.anonymous with
        | none =>
          rw [h1, h2] at hanonrel
          exact hanonrel.elim
        | some op2 =>
          rw [h1, h2] at hanonrel
          show (score_operation self fu op1 schema q1 ser >>= fun a =>
              estimated_named self fu q1.named schema q1 ser >>= fun n =>
              pure (a + n)) =
            (score_operation self fu op2 schema q2 ser >>= fun a =>
              estimated_named self fu q2.named schema q2 ser >>= fun n =>
              pure (a + n))
          rw [ih_op _ _ _ _ _ _ _ hnc hdoc hanonrel]
          exact result_bind_congr (fun a => by
            rw [ih_named _ _ _ _ _ _ _ hnc hdoc hdoc.named])

theorem schema_input_object_nocost : SchemaNoCostDirectives schema_input_object := by
  refine ⟨fun _ _ => rfl, fun _ _ => rfl, fun _ _ => rfl, ?_, ?_⟩
  · intro pt f fd hdef a ha
    simp only [schema_input_object] at hdef
    split at hdef
    · cases hdef
      simp only [List.mem_singleton] at ha
      rw [ha]
    · cases hdef
  · intro t fs hty p hp
    simp only [schema_input_object] at hty
    split at hty
    · simp at hty
    · split at hty
      · cases hty
        simp at hp
      · split at hty
        · simp at hty
        · cases hty

theorem c6_counterexample :
    SchemaNoCostDirectives schema_input_object ∧
    DocumentRel (fun _ _ => True) doc_arg_null doc_arg_object ∧
    estimated calc_input_object 12 doc_arg_null schema_input_object true = .ok 0 ∧
    estimated calc_input_object 12 doc_arg_object schema_input_object true = .ok 1 ∧
    (0 : Cost) ≠ 1 := by
  refine ⟨schema_input_object_nocost, ?_, ?_, ?_, by norm_num⟩
  · refine ⟨?_, List.Forall₂.nil, fun n => trivial⟩
    exact ⟨rfl, rfl,
      .cons _ _ _ _
        (.field _ _ (.mk "a" (.named "Int") [] _ _ _ _
          (.cons "arg" .null (.object []) [] [] trivial .nil) .nil))
        .nil⟩
  · simp [estimated, estimated_named, score_operation, score_selection_set, score_selection,
      score_field, field_arguments_cost, field_requirements_cost, score_argument,
      FieldDefinition.argument_by_name, List.find?, resolved_list_size_directive, skipped_by_directives, include_directive_from_field,
      skip_directive_from_field, schema_input_object, calc_input_object, doc_arg_null,
      Field.name, Field.ty, Field.arguments, Field.directives, Field.selection_set,
      GqlType.inner_named_type, GqlType.is_list, Operation.is_mutation,
      ExtendedType.is_interface, ExtendedType.is_object, ExtendedType.is_union]
  · simp [estimated, estimated_named, score_operation, score_selection_set, score_selection,
      score_field, field_arguments_cost, field_requirements_cost, score_argument,
      score_argument_fields, FieldDefinition.argument_by_name, List.find?,
      resolved_list_size_directive, skipped_by_directives,
      include_directive_from_field, skip_directive_from_field, schema_input_object,
      calc_input_object, doc_arg_object, Field.name, Field.ty, Field.arguments,
      Field.directives, Field.selection_set, GqlType.inner_named_type, GqlType.is_list,
      Operation.is_mutation, ExtendedType.is_interface, ExtendedType.is_object,
      ExtendedType.is_union]

/-- C6 (amended): over a schema with no Cost, ListSize or Requires directives, the
static estimate is unchanged when literal argument values are replaced by values of
the same nesting shape (leaves interchangeable, lists pointwise, input objects
field-wise); it is not insensitive to argument values outright: an input-object
literal contributes 1.0 where a null contributes 0.0 even with no directives -- see
the counterexample. -/
theorem c6_shape_invariance (self : StaticCostCalculator) (fuel : Nat)
    (q1 q2 : ExecutableDocument) (schema : Schema) (ser : Bool)
    (hnc : SchemaNoCostDirectives schema) (hrel : DocumentRel SameShape q1 q2) :
    estimated self fuel q1 schema ser = estimated self fuel q2 schema ser :=
  (shape_equal_document fuel).2.2.2.2.2.2.2 self q1 q2 schema ser hnc hrel

theorem c6_shape_invariance_witness :
    SchemaNoCostDirectives schema_input_object ∧
    DocumentRel SameShape doc_arg_null doc_arg_true ∧
    estimated calc_input_object 12 doc_arg_null schema_input_object true =
      estimated calc_input_object 12 doc_arg_true schema_input_object true := by
  have hrel : DocumentRel SameShape doc_arg_null doc_arg_true := by
    refine ⟨?_, List.Forall₂.nil, fun n => trivial⟩
    exact ⟨rfl, rfl,
      .cons _ _ _ _
        (.field _ _ (.mk "a" (.named "Int") [] _ _ _ _
          (.cons "arg" .null (.boolean true) [] [] (.leaf _ _ rfl rfl) .nil) .nil))
        .nil⟩
  exact ⟨schema_input_object_nocost, hrel,
    c6_shape_invariance calc_input_object 12 doc_arg_null doc_arg_true
      schema_input_object true schema_input_object_nocost hrel⟩

end StaticCost
